import Mathlib

set_option maxHeartbeats 1000000

/-!
Verification development for the `my-mini-redis` repository.

Shallow embedding conventions:
* bytes are `Nat` (values 0..255), byte buffers are `List Nat`;
* Rust `String` values are byte lists that happen to be valid UTF-8;
* cursor positions into a buffer are `Nat` offsets;
* `u64` arithmetic carries explicit `2 ^ 64` bounds where the source casts
  or uses checked arithmetic;
* fallible code returns `Except` / `Option`.
-/

namespace MiniRedis

/-! ### Byte-level primitives of `src/frame.rs` -/

/-- Error type `frame::Error`: `Incomplete` (more data needed) or
`Other` (malformed encoding). The payload message is irrelevant to
control flow and omitted. -/
inductive FrErr where
  | incomplete
  | bad
deriving DecidableEq, Repr

/-- Outcomes of `Frame::parse`: the `frame::Error` cases plus two
distinguished panic values, `panicked` marking the `unimplemented!()` arm
for an unknown tag byte and `slicePanic` marking the out-of-bounds slice
`&src.chunk()[..len]` in the bulk arm (reachable when the `usize`
addition `len + 2` wraps and defeats the remaining-length guard). -/
inductive PFail where
  | incomplete
  | bad
  | panicked
  | slicePanic
deriving DecidableEq, Repr

/-- Splits the first CRLF-terminated line off a byte sequence. This models
the scan loop of `get_line` in `src/frame.rs`: it looks for the first index
`i` with `src[i] = 13` and `src[i+1] = 10` (the bound `i + 1 < length`
matches the Rust loop bound `start..(len - 1)`). Returns the line and the
bytes after the CRLF. -/
def lineSplit : List Nat → Option (List Nat × List Nat)
  | [] => none
  | [_] => none
  | a :: b :: rest =>
    if a = 13 ∧ b = 10 then some ([], rest)
    else
      match lineSplit (b :: rest) with
      | some (l, r) => some (a :: l, r)
      | none => none

/-- Model of `get_u8`: the byte at the cursor, advancing by one;
`none` models `Error::Incomplete`. -/
def getU8 (src : List Nat) (pos : Nat) : Option (Nat × Nat) :=
  match (src.drop pos).head? with
  | some b => some (b, pos + 1)
  | none => none

/-- Model of `peek_u8`: the byte at the cursor without advancing. -/
def peekU8 (src : List Nat) (pos : Nat) : Option Nat :=
  (src.drop pos).head?

/-- Model of `skip`: advance the cursor by `n` if at least `n` bytes
remain (`src.remaining() < n` is `src.length - pos < n`). -/
def skipN (src : List Nat) (pos n : Nat) : Option Nat :=
  if src.length - pos < n then none else some (pos + n)

/-- Model of `get_line`: the first CRLF-terminated line starting at `pos`,
and the position just past its CRLF. (For an empty buffer the Rust
`len - 1` would underflow; that call site is unreachable because a tag
byte has always been consumed first, and the model returns `none`.) -/
def getLine (src : List Nat) (pos : Nat) : Option (List Nat × Nat) :=
  match lineSplit (src.drop pos) with
  | some (line, _) => some (line, pos + line.length + 2)
  | none => none

/-- ASCII decimal digit value of a byte, if it is a digit. -/
def asciiDigit (b : Nat) : Option Nat :=
  if 48 ≤ b ∧ b ≤ 57 then some (b - 48) else none

/-- Digit-accumulation loop of the `atoi` crate over `u64` with checked
arithmetic: consumes leading digits, stops at the first non-digit, fails
on overflow. With a minus sign on the unsigned target every nonzero digit
overflows the checked subtraction, so the accumulator must stay zero. -/
def atoiRun (minus : Bool) (acc : Nat) : List Nat → Option Nat
  | [] => some acc
  | b :: rest =>
    match asciiDigit b with
    | none => some acc
    | some d =>
      if minus then
        if acc = 0 ∧ d = 0 then atoiRun minus 0 rest else none
      else if acc * 10 + d < 2 ^ 64 then atoiRun minus (acc * 10 + d) rest
      else none

/-- Model of `atoi::atoi::<u64>`: an optional sign followed by at least one
digit; parses the leading digit run (ignoring any trailing bytes) with
checked `u64` arithmetic. -/
def atoiU64 (text : List Nat) : Option Nat :=
  match text with
  | [] => none
  | b :: rest =>
    if b = 43 then
      match rest with
      | [] => none
      | c :: _ => if (asciiDigit c).isSome then atoiRun false 0 rest else none
    else if b = 45 then
      match rest with
      | [] => none
      | c :: _ => if (asciiDigit c).isSome then atoiRun true 0 rest else none
    else if (asciiDigit b).isSome then atoiRun false 0 text
    else none

/-- Model of `get_decimal`: a line converted by `atoi::<u64>`; a line that
`atoi` rejects is the protocol error "invalid frame format". -/
def getDecimal (src : List Nat) (pos : Nat) : Except FrErr (Nat × Nat) :=
  match getLine src pos with
  | none => .error .incomplete
  | some (line, p) =>
    match atoiU64 line with
    | some v => .ok (v, p)
    | none => .error .bad

/-- Whether a byte is a UTF-8 continuation byte (`0x80..=0xBF`). -/
def isCont (b : Nat) : Bool := 128 ≤ b && b ≤ 191

/-- UTF-8 validity of a byte sequence as enforced by `String::from_utf8`
and `str::from_utf8` (the RFC 3629 well-formedness table). -/
def utf8Valid : List Nat → Bool
  | [] => true
  | b :: rest =>
    if b ≤ 127 then utf8Valid rest
    else if 194 ≤ b ∧ b ≤ 223 then
      match rest with
      | c1 :: rest2 => isCont c1 && utf8Valid rest2
      | [] => false
    else if b = 224 then
      match rest with
      | c1 :: c2 :: rest2 => (160 ≤ c1 && c1 ≤ 191) && isCont c2 && utf8Valid rest2
      | _ => false
    else if (225 ≤ b ∧ b ≤ 236) ∨ b = 238 ∨ b = 239 then
      match rest with
      | c1 :: c2 :: rest2 => isCont c1 && isCont c2 && utf8Valid rest2
      | _ => false
    else if b = 237 then
      match rest with
      | c1 :: c2 :: rest2 => (128 ≤ c1 && c1 ≤ 159) && isCont c2 && utf8Valid rest2
      | _ => false
    else if b = 240 then
      match rest with
      | c1 :: c2 :: c3 :: rest2 =>
        (144 ≤ c1 && c1 ≤ 191) && isCont c2 && isCont c3 && utf8Valid rest2
      | _ => false
    else if 241 ≤ b ∧ b ≤ 243 then
      match rest with
      | c1 :: c2 :: c3 :: rest2 =>
        isCont c1 && isCont c2 && isCont c3 && utf8Valid rest2
      | _ => false
    else if b = 244 then
      match rest with
      | c1 :: c2 :: c3 :: rest2 =>
        (128 ≤ c1 && c1 ≤ 143) && isCont c2 && isCont c3 && utf8Valid rest2
      | _ => false
    else false

/-! ### Frames -/

/-- The `Frame` enum of `src/frame.rs`. `Simple` and `Error` carry Rust
`String`s, modelled as their UTF-8 bytes; `Integer` carries a `u64`. -/
inductive Frame where
  | simple (s : List Nat)
  | error (s : List Nat)
  | integer (n : Nat)
  | bulk (b : List Nat)
  | null
  | array (items : List Frame)

/-! ### `Frame::check` and `Frame::parse`

Both functions are recursive through the array arm. The embedding uses a
fuel parameter that strictly decreases on every (mutual) recursive call,
making the recursion structural; the top-level entry points supply
`src.length + 1` fuel, more than any input can consume, because every
frame consumes more bytes than the fuel its traversal uses. Fuel
exhaustion is reported as `Incomplete`. -/

mutual

/-- Model of `Frame::check`: validates that a complete frame starts at
`pos`, returning the position just past it, without building a `Frame`.
The bulk arm's skip length `len + 2` is a `usize` sum in the source; it
wraps modulo `2 ^ 64` (release-build semantics) when the length field is
`2 ^ 64 - 2` or `2 ^ 64 - 1`. -/
def checkF (src : List Nat) (fuel pos : Nat) : Except FrErr Nat :=
  match fuel with
  | 0 => .error .incomplete
  | f + 1 =>
    match getU8 src pos with
    | none => .error .incomplete
    | some (b, pos1) =>
      if b = 43 ∨ b = 45 then
        match getLine src pos1 with
        | some (_, p) => .ok p
        | none => .error .incomplete
      else if b = 58 then
        match getDecimal src pos1 with
        | .ok (_, p) => .ok p
        | .error e => .error e
      else if b = 36 then
        match peekU8 src pos1 with
        | none => .error .incomplete
        | some c =>
          if c = 45 then
            match skipN src pos1 4 with
            | some p => .ok p
            | none => .error .incomplete
          else
            match getDecimal src pos1 with
            | .ok (len, pos2) =>
              match skipN src pos2 ((len + 2) % 2 ^ 64) with
              | some p => .ok p
              | none => .error .incomplete
            | .error e => .error e
      else if b = 42 then
        match getDecimal src pos1 with
        | .ok (cnt, pos2) => checkList src f cnt pos2
        | .error e => .error e
      else .error .bad

/-- The `for _ in 0..len { Frame::check(src)?; }` loop of the array arm. -/
def checkList (src : List Nat) (fuel n pos : Nat) : Except FrErr Nat :=
  match fuel with
  | 0 => .error .incomplete
  | f + 1 =>
    match n with
    | 0 => .ok pos
    | m + 1 =>
      match checkF src f pos with
      | .ok p => checkList src f m p
      | .error e => .error e

end

mutual

/-- Model of `Frame::parse`: builds the `Frame` starting at `pos` and
returns it with the position just past it. The unknown-tag arm is the
source's `unimplemented!()`, modelled as the `panicked` outcome. In the
bulk arm `let n = len + 2` is a wrapping `usize` sum (modulo `2 ^ 64`),
so the guard `src.remaining() < n` can pass with `n` wrapped small while
the copy `&src.chunk()[..len]` is out of bounds — the source then panics
on the slice index, modelled as `slicePanic`. -/
def parseF (src : List Nat) (fuel pos : Nat) : Except PFail (Frame × Nat) :=
  match fuel with
  | 0 => .error .incomplete
  | f + 1 =>
    match getU8 src pos with
    | none => .error .incomplete
    | some (b, pos1) =>
      if b = 43 then
        match getLine src pos1 with
        | some (line, p) =>
          if utf8Valid line then .ok (.simple line, p) else .error .bad
        | none => .error .incomplete
      else if b = 45 then
        match getLine src pos1 with
        | some (line, p) =>
          if utf8Valid line then .ok (.error line, p) else .error .bad
        | none => .error .incomplete
      else if b = 58 then
        match getDecimal src pos1 with
        | .ok (v, p) => .ok (.integer v, p)
        | .error .incomplete => .error .incomplete
        | .error .bad => .error .bad
      else if b = 36 then
        match peekU8 src pos1 with
        | none => .error .incomplete
        | some c =>
          if c = 45 then
            match getLine src pos1 with
            | some (line, p) =>
              if line = [45, 49] then .ok (.null, p) else .error .bad
            | none => .error .incomplete
          else
            match getDecimal src pos1 with
            | .ok (len, pos2) =>
              if src.length - pos2 < (len + 2) % 2 ^ 64 then .error .incomplete
              else if src.length - pos2 < len then .error .slicePanic
              else .ok (.bulk ((src.drop pos2).take len), pos2 + (len + 2) % 2 ^ 64)
            | .error .incomplete => .error .incomplete
            | .error .bad => .error .bad
      else if b = 42 then
        match getDecimal src pos1 with
        | .ok (cnt, pos2) =>
          match parseList src f cnt pos2 with
          | .ok (items, p) => .ok (.array items, p)
          | .error e => .error e
        | .error .incomplete => .error .incomplete
        | .error .bad => .error .bad
      else .error .panicked

/-- The element loop of the array arm of `Frame::parse`. -/
def parseList (src : List Nat) (fuel n pos : Nat) : Except PFail (List Frame × Nat) :=
  match fuel with
  | 0 => .error .incomplete
  | f + 1 =>
    match n with
    | 0 => .ok ([], pos)
    | m + 1 =>
      match parseF src f pos with
      | .ok (fr, p) =>
        match parseList src f m p with
        | .ok (items, p2) => .ok (fr :: items, p2)
        | .error e => .error e
      | .error e => .error e

end

/-- Entry point for `Frame::check` on a whole buffer. -/
def frameCheck (src : List Nat) : Except FrErr Nat :=
  checkF src (src.length + 1) 0

/-- Entry point for `Frame::parse` on a whole buffer. -/
def frameParse (src : List Nat) : Except PFail (Frame × Nat) :=
  parseF src (src.length + 1) 0

/-- Outcome of one `Connection::parse_frame` call: a complete frame with
the buffer bytes left after advancing, a request for more data
(`Ok(None)`), an error that terminates the connection, or a crash — a
panic inside `Frame::parse` (the `unimplemented!()` arm or the bulk
slice copy), which unwinds the connection task instead of returning. -/
inductive ReadOutcome where
  | frame (f : Frame) (rest : List Nat)
  | needMore
  | failed
  | crashed

/-- Model of `Connection::parse_frame` (src/connection.rs): run
`Frame::check`; on success record the checked length, re-parse from the
start, and advance the buffer by the checked length; `Incomplete` from
`check` asks for more data; any error from `parse` (the `?`) terminates
the connection. -/
def parseFrame (buffer : List Nat) : ReadOutcome :=
  match frameCheck buffer with
  | .ok len =>
    match frameParse buffer with
    | .ok (f, _) => .frame f (buffer.drop len)
    | .error .panicked => .crashed
    | .error .slicePanic => .crashed
    | .error _ => .failed
  | .error .incomplete => .needMore
  | .error .bad => .failed

/-! ### The parse cursor (`src/parse.rs`)

A `Parse` is the iterator over the elements of an array frame; it is
modelled as the list of elements not yet consumed. -/

/-- The `ParseError` enum: `EndOfStream` is handled at runtime by commands
with optional trailing tokens; every other error terminates the
connection. -/
inductive ParseErr where
  | endOfStream
  | other
deriving DecidableEq, Repr

/-- Model of `Parse::next`. -/
def parseNext : List Frame → Except ParseErr (Frame × List Frame)
  | [] => .error .endOfStream
  | f :: rest => .ok (f, rest)

/-- Model of `Parse::next_string`: a Simple string directly, a Bulk whose
bytes are valid UTF-8, anything else is a protocol error. The returned
Rust `String` is modelled by its (valid UTF-8) bytes. -/
def nextString (parts : List Frame) : Except ParseErr (List Nat × List Frame) :=
  match parseNext parts with
  | .error e => .error e
  | .ok (.simple s, rest) => .ok (s, rest)
  | .ok (.bulk data, rest) =>
    if utf8Valid data then .ok (data, rest) else .error .other
  | .ok (_, _) => .error .other

/-- Big-endian 8-byte encoding of a `u64`, as `u64::to_be_bytes`. -/
def beBytes8 (n : Nat) : List Nat :=
  [n / 2 ^ 56 % 256, n / 2 ^ 48 % 256, n / 2 ^ 40 % 256, n / 2 ^ 32 % 256,
   n / 2 ^ 24 % 256, n / 2 ^ 16 % 256, n / 2 ^ 8 % 256, n % 256]

/-- Model of `Parse::next_bytes`: Simple or Bulk as raw bytes, an Integer
as its big-endian encoding. -/
def nextBytes (parts : List Frame) : Except ParseErr (List Nat × List Frame) :=
  match parseNext parts with
  | .error e => .error e
  | .ok (.simple s, rest) => .ok (s, rest)
  | .ok (.bulk data, rest) => .ok (data, rest)
  | .ok (.integer num, rest) => .ok (beBytes8 num, rest)
  | .ok (_, _) => .error .other

/-- Model of `Parse::next_int`: an Integer directly; Simple or Bulk run
through `atoi::<u64>`. -/
def nextInt (parts : List Frame) : Except ParseErr (Nat × List Frame) :=
  match parseNext parts with
  | .error e => .error e
  | .ok (.simple s, rest) =>
    match atoiU64 s with
    | some n => .ok (n, rest)
    | none => .error .other
  | .ok (.bulk data, rest) =>
    match atoiU64 data with
    | some n => .ok (n, rest)
    | none => .error .other
  | .ok (.integer num, rest) => .ok (num, rest)
  | .ok (_, _) => .error .other

/-! ### Commands (`src/cmd/*.rs`) -/

/-- Errors produced while decoding or applying a command. The source boxes
them into an opaque `crate::Error`; only the provenance distinctions kept
here are observable to the handler. -/
inductive CmdErr where
  | protocol
  | setOptionUnsupported
  | unsubscribeUnsupported
deriving DecidableEq, Repr

/-- Rust `std::time::Duration`, modelled as a number of nanoseconds. -/
abbrev Duration := Nat

/-- Model of `Duration::from_secs`. -/
def durationFromSecs (s : Nat) : Duration := s * 1000000000

/-- Model of `Duration::from_millis`. -/
def durationFromMillis (ms : Nat) : Duration := ms * 1000000

/-- Model of `Duration::as_millis` (the `u128` result needs no truncation
for representable durations). -/
def durationAsMillis (d : Duration) : Nat := d / 1000000

/-- ASCII lowercase mapping of a byte. -/
def asciiLower (b : Nat) : Nat := if 65 ≤ b ∧ b ≤ 90 then b + 32 else b

/-- Model of `str::to_lowercase` for the ASCII command names compared
against; non-ASCII code points never lowercase to the pure-ASCII command
names, so the comparison results agree with the source. -/
def lowercase (s : List Nat) : List Nat := s.map asciiLower

/-- ASCII uppercase mapping of a byte. -/
def asciiUpper (b : Nat) : Nat := if 97 ≤ b ∧ b ≤ 122 then b - 32 else b

/-- Model of `str::to_uppercase` for the ASCII option names compared
against (`EX` / `PX`). -/
def uppercase (s : List Nat) : List Nat := s.map asciiUpper

/-- Byte constants for the ASCII names appearing in the source. -/
def GETN : List Nat := [103, 101, 116]

/-- ASCII bytes of "publish". -/
def PUBLISHN : List Nat := [112, 117, 98, 108, 105, 115, 104]

/-- ASCII bytes of "set". -/
def SETN : List Nat := [115, 101, 116]

/-- ASCII bytes of "subscribe". -/
def SUBSCRIBEN : List Nat := [115, 117, 98, 115, 99, 114, 105, 98, 101]

/-- ASCII bytes of "unsubscribe". -/
def UNSUBSCRIBEN : List Nat := [117, 110, 115, 117, 98, 115, 99, 114, 105, 98, 101]

/-- ASCII bytes of "ping". -/
def PINGN : List Nat := [112, 105, 110, 103]

/-- ASCII bytes of "px". -/
def PXLOWER : List Nat := [112, 120]

/-- ASCII bytes of "PX". -/
def PXN : List Nat := [80, 88]

/-- ASCII bytes of "EX". -/
def EXN : List Nat := [69, 88]

/-- ASCII bytes of "OK". -/
def OKB : List Nat := [79, 75]

/-- ASCII bytes of "PONG". -/
def PONGB : List Nat := [80, 79, 78, 71]

/-- ASCII bytes of "message". -/
def MESSAGEB : List Nat := [109, 101, 115, 115, 97, 103, 101]

/-- Bytes of the reply text of `Unknown::apply`:
ERR unknown command, a space, then the name between apostrophes (39). -/
def errUnknown (name : List Nat) : List Nat :=
  [69, 82, 82, 32, 117, 110, 107, 110, 111, 119, 110, 32,
   99, 111, 109, 109, 97, 110, 100, 32, 39] ++ name ++ [39]

/-- The `Command` enum of `src/cmd/mod.rs` (keeping the source's
`Subcribe` spelling), flattened over the per-command structs. The `Set`
value is decoded by `parse_frames` with `next_string`, so it is stored as
the bytes of a Rust `String`. -/
inductive Command where
  | get (key : List Nat)
  | publish (channel : List Nat) (message : List Nat)
  | set (key : List Nat) (value : List Nat) (expire : Option Duration)
  | subcribe (channels : List (List Nat))
  | unsubscribe (channels : List (List Nat))
  | ping (msg : Option (List Nat))
  | unknown (name : List Nat)
deriving DecidableEq, Repr

/-- Model of `Command::get_name`. -/
def Command.getName : Command → List Nat
  | .get _ => GETN
  | .publish _ _ => PUBLISHN
  | .set _ _ _ => SETN
  | .subcribe _ => SUBSCRIBEN
  | .unsubscribe _ => UNSUBSCRIBEN
  | .ping _ => PINGN
  | .unknown n => n

/-- Model of `Get::parse_frames`. -/
def getParseFrames (parts : List Frame) : Except CmdErr (Command × List Frame) :=
  match nextString parts with
  | .ok (key, rest) => .ok (.get key, rest)
  | .error _ => .error .protocol

/-- Model of `Publish::parse_frames`. -/
def publishParseFrames (parts : List Frame) : Except CmdErr (Command × List Frame) :=
  match nextString parts with
  | .ok (channel, rest) =>
    match nextBytes rest with
    | .ok (message, rest2) => .ok (.publish channel message, rest2)
    | .error _ => .error .protocol
  | .error _ => .error .protocol

/-- Model of `Set::parse_frames`. The source's `Err(ee.into())` arm is a
slip for `Err(err.into())`; the `value` field is read with `next_string`
and stored into the `Bytes` field. -/
def setParseFrames (parts : List Frame) : Except CmdErr (Command × List Frame) :=
  match nextString parts with
  | .error _ => .error .protocol
  | .ok (key, rest) =>
    match nextString rest with
    | .error _ => .error .protocol
    | .ok (value, rest2) =>
      match nextString rest2 with
      | .ok (s, rest3) =>
        if uppercase s = EXN then
          match nextInt rest3 with
          | .ok (secs, rest4) =>
            .ok (.set key value (some (durationFromSecs secs)), rest4)
          | .error _ => .error .protocol
        else if uppercase s = PXN then
          match nextInt rest3 with
          | .ok (ms, rest4) =>
            .ok (.set key value (some (durationFromMillis ms)), rest4)
          | .error _ => .error .protocol
        else .error .setOptionUnsupported
      | .error .endOfStream => .ok (.set key value none, rest2)
      | .error .other => .error .protocol

/-- The `loop { match parse.next_string() ... }` shared by
`Subcribe::parse_frames` and `Unsubscribe::parse_frames`, with
`next_string` unfolded one step so that the recursion is structural. -/
def stringLoop : List Frame → List (List Nat) →
    Except CmdErr (List (List Nat) × List Frame)
  | [], acc => .ok (acc, [])
  | .simple s :: rest, acc => stringLoop rest (acc ++ [s])
  | .bulk data :: rest, acc =>
    if utf8Valid data then stringLoop rest (acc ++ [data])
    else .error .protocol
  | _ :: _, _ => .error .protocol

/-- Model of `Subcribe::parse_frames`. -/
def subcribeParseFrames (parts : List Frame) : Except CmdErr (Command × List Frame) :=
  match nextString parts with
  | .error _ => .error .protocol
  | .ok (first, rest) =>
    match stringLoop rest [first] with
    | .ok (channels, rem) => .ok (.subcribe channels, rem)
    | .error e => .error e

/-- Model of `Unsubscribe::parse_frames`. -/
def unsubscribeParseFrames (parts : List Frame) : Except CmdErr (Command × List Frame) :=
  match stringLoop parts [] with
  | .ok (channels, rem) => .ok (.unsubscribe channels, rem)
  | .error e => .error e

/-- Model of `Ping::parse_frames`. -/
def pingParseFrames (parts : List Frame) : Except CmdErr (Command × List Frame) :=
  match nextBytes parts with
  | .ok (msg, rest) => .ok (.ping (some msg), rest)
  | .error .endOfStream => .ok (.ping none, parts)
  | .error .other => .error .protocol

/-- Model of `Parse::finish`, applied by `Command::from_frame` after a
known command has been decoded. -/
def pfinish : List Frame → Except CmdErr Unit
  | [] => .ok ()
  | _ :: _ => .error .protocol

/-- Runs `parse.finish()` after a decoded command. -/
def withFinish (r : Except CmdErr (Command × List Frame)) : Except CmdErr Command :=
  match r with
  | .ok (cmd, rem) =>
    match pfinish rem with
    | .ok _ => .ok cmd
    | .error e => .error e
  | .error e => .error e

/-- Model of `Command::from_frame`: the frame must be an array; the first
element is the case-insensitive command name; known names dispatch to
their `parse_frames` and then `finish`; unknown names return early as
`Unknown` carrying the lowercased name, never failing. -/
def fromFrame : Frame → Except CmdErr Command
  | .array parts =>
    (match nextString parts with
     | .error _ => .error .protocol
     | .ok (name, rest) =>
       let lname := lowercase name
       if lname = GETN then withFinish (getParseFrames rest)
       else if lname = PUBLISHN then withFinish (publishParseFrames rest)
       else if lname = SETN then withFinish (setParseFrames rest)
       else if lname = SUBSCRIBEN then withFinish (subcribeParseFrames rest)
       else if lname = UNSUBSCRIBEN then withFinish (unsubscribeParseFrames rest)
       else if lname = PINGN then withFinish (pingParseFrames rest)
       else .ok (.unknown lname))
  | _ => .error .protocol

/-- Model of the per-command `into_frame` encoders (client side). TTL is
always encoded as `PX` in milliseconds, cast `as u64`. `Unknown` has no
encoder in the source; its arm is an unused placeholder. -/
def Command.intoFrame : Command → Frame
  | .get key => .array [.bulk GETN, .bulk key]
  | .publish c m => .array [.bulk PUBLISHN, .bulk c, .bulk m]
  | .set k v e =>
    .array ([.bulk SETN, .bulk k, .bulk v] ++
      (match e with
       | some d => [.bulk PXLOWER, .integer (durationAsMillis d % 2 ^ 64)]
       | none => []))
  | .subcribe chans => .array (.bulk SUBSCRIBEN :: chans.map .bulk)
  | .unsubscribe chans => .array (.bulk UNSUBSCRIBEN :: chans.map .bulk)
  | .ping none => .array [.bulk PINGN]
  | .ping (some m) => .array [.bulk PINGN, .bulk m]
  | .unknown _ => .null

/-! ### The store (`src/db.rs`)

`Instant` is a `Nat` in the same (nanosecond) scale as `Duration`, so
`Instant::now() + duration` is addition. The `HashMap`s are association
lists with unique keys; the `BTreeSet<(Instant, String)>` is a list kept
sorted by instant, then by byte-lexicographic key order. The
`broadcast::Sender` of a channel is represented by its current receiver
count, the only observable the store operations use. -/

/-- Entry in the key-value store. -/
structure Entry where
  data : List Nat
  expires_at : Option Nat
deriving DecidableEq, Repr

/-- The `State` struct guarded by the mutex. -/
structure DbState where
  entries : List (List Nat × Entry)
  pubSub : List (List Nat × Nat)
  expirations : List (Nat × List Nat)
  shutdown : Bool
deriving DecidableEq, Repr

/-- Lookup in a `HashMap` modelled as an association list: the value of
the first pair carrying the key. -/
def assocGet {V : Type} : List (List Nat × V) → List Nat → Option V
  | [], _ => none
  | p :: rest, k => if p.1 = k then some p.2 else assocGet rest k

/-- Model of `HashMap::insert`: returns the previous value and the updated
map (replacement in place, or append for a fresh key). -/
def assocInsert {V : Type} (l : List (List Nat × V)) (k : List Nat) (v : V) :
    Option V × List (List Nat × V) :=
  match assocGet l k with
  | some prev => (some prev, l.map (fun p => if p.1 = k then (k, v) else p))
  | none => (none, l ++ [(k, v)])

/-- Model of `HashMap::remove` (the returned value is unused in the
source). -/
def assocRemove {V : Type} (l : List (List Nat × V)) (k : List Nat) :
    List (List Nat × V) :=
  l.filter (fun p => decide (p.1 ≠ k))

/-- Byte-lexicographic order on keys, as Rust `String`'s `Ord`. -/
def keyLt : List Nat → List Nat → Bool
  | [], [] => false
  | [], _ :: _ => true
  | _ :: _, [] => false
  | a :: as, b :: bs => if a < b then true else if a = b then keyLt as bs else false

/-- The `Ord` of `(Instant, String)` pairs: instant first, key second. -/
def pairLt (x y : Nat × List Nat) : Bool :=
  if x.1 < y.1 then true else if x.1 = y.1 then keyLt x.2 y.2 else false

/-- Model of `BTreeSet::insert` on a sorted duplicate-free list. -/
def btInsert (x : Nat × List Nat) : List (Nat × List Nat) → List (Nat × List Nat)
  | [] => [x]
  | y :: ys =>
    if pairLt x y then x :: y :: ys
    else if x = y then y :: ys
    else y :: btInsert x ys

/-- Model of `BTreeSet::remove`. -/
def btRemove (x : Nat × List Nat) (l : List (Nat × List Nat)) :
    List (Nat × List Nat) :=
  l.filter (fun y => y != x)

/-- Model of `State::next_expiration`: the instant of the first (least)
index entry. -/
def nextExpiration (s : DbState) : Option Nat :=
  s.expirations.head?.map Prod.fst

/-- Model of `Db::get`: lock, look up, clone the payload. The shared state
is not modified. -/
def dbGet (s : DbState) (key : List Nat) : Option (List Nat) :=
  (assocGet s.entries key).map Entry.data

/-- The `Db::get` operation as a state transformer, making explicit that
the operation returns the state it was given. -/
def dbGetOp (s : DbState) (key : List Nat) : Option (List Nat) × DbState :=
  (dbGet s key, s)

/-- Model of `Db::set` at instant `now`. Returns the updated state and
whether `background_task.notify_one()` is called. The notify flag is
computed inside `expire.map`, before the entry is inserted, from
`next_expiration` of the unmodified state. -/
def dbSet (s : DbState) (now : Nat) (key value : List Nat)
    (expire : Option Duration) : DbState × Bool :=
  let notifyAndWhen : Option (Bool × Nat) :=
    expire.map (fun d =>
      let when := now + d
      ((match nextExpiration s with
        | some expiration => decide (expiration > when)
        | none => true), when))
  let expires_at : Option Nat := notifyAndWhen.map Prod.snd
  let notify : Bool :=
    match notifyAndWhen with
    | some (b, _) => b
    | none => false
  let pr := assocInsert s.entries key { data := value, expires_at := expires_at }
  let exps1 :=
    match pr.1 with
    | some prev =>
      match prev.expires_at with
      | some when => btRemove (when, key) s.expirations
      | none => s.expirations
    | none => s.expirations
  let exps2 :=
    match expires_at with
    | some when => btInsert (when, key) exps1
    | none => exps1
  ({ s with entries := pr.2, expirations := exps2 }, notify)

/-- Model of `Db::subscibe` (source spelling): get the channel's broadcast
sender, creating it if absent, and attach a new receiver. -/
def dbSubscibe (s : DbState) (key : List Nat) : DbState :=
  match assocGet s.pubSub key with
  | some n => { s with pubSub := (assocInsert s.pubSub key (n + 1)).2 }
  | none => { s with pubSub := (assocInsert s.pubSub key 1).2 }

/-- Model of `Db::publish`: the number of receivers the broadcast `send`
reports, or 0 when the channel is absent or has no receivers
(`send` errors on zero receivers and the source maps that to 0). -/
def dbPublish (s : DbState) (key : List Nat) (_value : List Nat) : Nat :=
  match assocGet s.pubSub key with
  | some n => n
  | none => 0

/-- The `Db::publish` operation as a state transformer: it only reads
the registry. -/
def dbPublishOp (s : DbState) (key value : List Nat) : Nat × DbState :=
  (dbPublish s key value, s)

/-- The `while let` loop of `Shared::purge_expired_keys`: repeatedly take
the first (least) index pair; if its instant is still in the future stop
and report it, otherwise remove the key from the key-space and the pair
from the index. `fuel` strictly decreases to keep the recursion
structural; the entry point supplies more than the loop can use. -/
def purgeGo (now fuel : Nat) (entries : List (List Nat × Entry))
    (exps : List (Nat × List Nat)) :
    Option Nat × List (List Nat × Entry) × List (Nat × List Nat) :=
  match fuel with
  | 0 => (none, entries, exps)
  | f + 1 =>
    match exps with
    | [] => (none, entries, exps)
    | (when, key) :: _ =>
      if when > now then (some when, entries, exps)
      else purgeGo now f (assocRemove entries key) (btRemove (when, key) exps)

/-- Model of `Shared::purge_expired_keys` at instant `now`: `None`
immediately under shutdown, otherwise the purge loop; returns the next
deadline (if any) and the updated state. -/
def purgeExpiredKeys (s : DbState) (now : Nat) : Option Nat × DbState :=
  if s.shutdown then (none, s)
  else
    let r := purgeGo now (s.expirations.length + 1) s.entries s.expirations
    (r.1, { s with entries := r.2.1, expirations := r.2.2 })

/-! ### The connection handler (`src/server.rs`) and pub/sub mode
(`src/cmd/subscribe.rs`) -/

/-- Result of applying one decoded command in the normal-mode loop of
`Handler::run`: either the updated store plus the reply frames written,
or the transition into the pub/sub loop of `Subcribe::apply` with the
initial channel list. -/
inductive HandlerStep where
  | normal (s2 : DbState) (replies : List Frame)
  | pubsubEntered (channels : List (List Nat))

/-- Model of `Command::apply` dispatch for one command (the pub/sub loop
itself is modelled by `handleCommand` below). `Unsubscribe` outside the
pub/sub context is an error, per `Command::apply`. -/
def applyCommand (s : DbState) (now : Nat) : Command → Except CmdErr HandlerStep
  | .get key =>
    .ok (.normal s
      [match dbGet s key with
       | some v => .bulk v
       | none => .null])
  | .set key value expire =>
    .ok (.normal (dbSet s now key value expire).1 [.simple OKB])
  | .publish c m => .ok (.normal s [.integer (dbPublish s c m)])
  | .subcribe channels => .ok (.pubsubEntered channels)
  | .ping none => .ok (.normal s [.simple PONGB])
  | .ping (some m) => .ok (.normal s [.bulk m])
  | .unknown name => .ok (.normal s [.error (errUnknown name)])
  | .unsubscribe _ => .error .unsubscribeUnsupported

/-- Model of one iteration of `Handler::run` after a frame has been read:
`Command::from_frame(frame)?` followed by `cmd.apply(..)?`. An `error`
result models the `?` propagating, which terminates the connection (the
task only logs it); no reply frame is written in that case. -/
def handleFrame (s : DbState) (now : Nat) (frame : Frame) :
    Except CmdErr HandlerStep :=
  match fromFrame frame with
  | .ok cmd => applyCommand s now cmd
  | .error e => .error e

/-- The ack frame of `make_unsubscribe_frame`. -/
def makeUnsubscribeFrame (channel : List Nat) (numSubs : Nat) : Frame :=
  .array [.bulk UNSUBSCRIBEN, .bulk channel, .integer numSubs]

/-- The unsubscribe loop of `handle_command`: remove each channel from the
stream map and emit an ack carrying the remaining count. -/
def unsubLoop : List (List Nat) → List (List Nat) →
    List (List Nat) × List Frame
  | [], subs => (subs, [])
  | c :: rest, subs =>
    let subs2 := subs.filter (fun k => k != c)
    let r := unsubLoop rest subs2
    (r.1, makeUnsubscribeFrame c subs2.length :: r.2)

/-- Model of `handle_command` in `src/cmd/subscribe.rs` (pub/sub mode):
`subscibeTo` is the pending-channels list, `subscriptions` the keys of the
stream map. Returns the updated pending list, the updated stream map keys
and the reply frames written; `error` models the `?` on
`Command::from_frame`, terminating the connection. Every decoded command
other than Subscribe and Unsubscribe is answered with the `Unknown` error
frame and the function returns `Ok`. -/
def handleCommand (frame : Frame) (subscibeTo subscriptions : List (List Nat)) :
    Except CmdErr (List (List Nat) × List (List Nat) × List Frame) :=
  match fromFrame frame with
  | .error e => .error e
  | .ok (.subcribe channels) => .ok (subscibeTo ++ channels, subscriptions, [])
  | .ok (.unsubscribe channels) =>
    let chans := if channels.isEmpty then subscriptions else channels
    let r := unsubLoop chans subscriptions
    .ok (subscibeTo, r.1, r.2)
  | .ok other =>
    .ok (subscibeTo, subscriptions, [.error (errUnknown other.getName)])

/-! ### Name dispatch of `Command::from_frame` on the concrete command
names (each holds by computation). -/

theorem fromFrame_get_cons (parts : List Frame) :
    fromFrame (.array (.bulk GETN :: parts)) = withFinish (getParseFrames parts) := rfl

theorem fromFrame_publish_cons (parts : List Frame) :
    fromFrame (.array (.bulk PUBLISHN :: parts)) =
      withFinish (publishParseFrames parts) := rfl

theorem fromFrame_set_cons (parts : List Frame) :
    fromFrame (.array (.bulk SETN :: parts)) = withFinish (setParseFrames parts) := rfl

theorem fromFrame_subscribe_cons (parts : List Frame) :
    fromFrame (.array (.bulk SUBSCRIBEN :: parts)) =
      withFinish (subcribeParseFrames parts) := rfl

theorem fromFrame_unsubscribe_cons (parts : List Frame) :
    fromFrame (.array (.bulk UNSUBSCRIBEN :: parts)) =
      withFinish (unsubscribeParseFrames parts) := rfl

theorem fromFrame_ping_cons (parts : List Frame) :
    fromFrame (.array (.bulk PINGN :: parts)) = withFinish (pingParseFrames parts) := rfl

/-! ### The expiration-index invariant (spec section 8) -/

/-- The keys of an association list are pairwise distinct. Automatic for
the real `HashMap`; part of the association-list model of it. -/
def KeysNodup {V : Type} (l : List (List Nat × V)) : Prop :=
  (l.map Prod.fst).Nodup

/-- Every entry with `expires_at = Some t` has its `(t, key)` pair exactly
once in the expiration index. -/
def ExactlyOnce (s : DbState) : Prop :=
  ∀ p ∈ s.entries, ∀ t, p.2.expires_at = some t →
    s.expirations.count (t, p.1) = 1

/-- No index pair references an absent key or one whose entry has no (or
a different) expiry. -/
def NoDangling (s : DbState) : Prop :=
  ∀ q ∈ s.expirations, ∃ e, assocGet s.entries q.2 = some e ∧
    e.expires_at = some q.1

/-- The expiration-index invariant of the shared state. -/
def Inv (s : DbState) : Prop :=
  KeysNodup s.entries ∧ ExactlyOnce s ∧ NoDangling s

/-! ### Association list and index lemmas -/

theorem assocGet_cons {V : Type} (p : List Nat × V) (rest : List (List Nat × V))
    (k : List Nat) :
    assocGet (p :: rest) k = if p.1 = k then some p.2 else assocGet rest k := rfl

theorem assocGet_none_not_mem {V : Type} {l : List (List Nat × V)}
    {k : List Nat} (h : assocGet l k = none) : ∀ p ∈ l, p.1 ≠ k := by
  induction l with
  | nil => intro p hp; simp at hp
  | cons a as ih =>
    rw [assocGet_cons] at h
    intro p hp
    by_cases ha : a.1 = k
    · simp [ha] at h
    · rw [if_neg ha] at h
      rcases List.mem_cons.mp hp with hpa | hpas
      · exact hpa ▸ ha
      · exact ih h p hpas

theorem assocGet_some_mem {V : Type} {l : List (List Nat × V)}
    {k : List Nat} {v : V} (h : assocGet l k = some v) :
    ∃ p ∈ l, p.1 = k ∧ p.2 = v := by
  induction l with
  | nil => simp [assocGet] at h
  | cons a as ih =>
    rw [assocGet_cons] at h
    by_cases ha : a.1 = k
    · rw [if_pos ha] at h
      exact ⟨a, List.mem_cons_self a as, ha, Option.some.inj h⟩
    · rw [if_neg ha] at h
      obtain ⟨p, hp, hk, hv⟩ := ih h
      exact ⟨p, List.mem_cons_of_mem a hp, hk, hv⟩

theorem mem_assocInsert {V : Type} {l : List (List Nat × V)}
    {k : List Nat} {v : V} {p : List Nat × V}
    (h : p ∈ (assocInsert l k v).2) :
    p = (k, v) ∨ (p ∈ l ∧ p.1 ≠ k) := by
  unfold assocInsert at h
  rcases hget : assocGet l k with _ | prev <;> rw [hget] at h
  · rcases List.mem_append.mp h with hl | hr
    · exact Or.inr ⟨hl, assocGet_none_not_mem hget p hl⟩
    · simp at hr
      exact Or.inl hr
  · obtain ⟨q, hq, hpq⟩ := List.mem_map.mp h
    by_cases hk : q.1 = k
    · rw [if_pos hk] at hpq
      exact Or.inl hpq.symm
    · rw [if_neg hk] at hpq
      exact Or.inr ⟨hpq ▸ hq, hpq ▸ hk⟩

theorem assocGet_append_single_self {V : Type} (l : List (List Nat × V))
    (k : List Nat) (v : V) (hget : assocGet l k = none) :
    assocGet (l ++ [(k, v)]) k = some v := by
  induction l with
  | nil => simp [assocGet, assocGet_cons]
  | cons a as ih =>
    rw [assocGet_cons] at hget
    by_cases ha : a.1 = k
    · simp [ha] at hget
    · rw [if_neg ha] at hget
      rw [List.cons_append, assocGet_cons, if_neg ha]
      exact ih hget

theorem assocGet_mapReplace_self {V : Type} (l : List (List Nat × V))
    (k : List Nat) (v : V) {prev : V} (hget : assocGet l k = some prev) :
    assocGet (l.map (fun p => if p.1 = k then (k, v) else p)) k = some v := by
  induction l with
  | nil => simp [assocGet] at hget
  | cons a as ih =>
    rw [assocGet_cons] at hget
    by_cases ha : a.1 = k
    · rw [List.map_cons, if_pos ha, assocGet_cons, if_pos rfl]
    · rw [if_neg ha] at hget
      rw [List.map_cons, if_neg ha, assocGet_cons, if_neg ha]
      exact ih hget

theorem assocGet_insert_self {V : Type} (l : List (List Nat × V))
    (k : List Nat) (v : V) : assocGet (assocInsert l k v).2 k = some v := by
  unfold assocInsert
  rcases hget : assocGet l k with _ | prev
  · exact assocGet_append_single_self l k v hget
  · exact assocGet_mapReplace_self l k v hget

theorem assocGet_append_single_other {V : Type} (l : List (List Nat × V))
    (k k2 : List Nat) (v : V) (hne : k2 ≠ k) :
    assocGet (l ++ [(k, v)]) k2 = assocGet l k2 := by
  induction l with
  | nil =>
    rw [List.nil_append, assocGet_cons, if_neg (fun hc : k = k2 => hne hc.symm)]
  | cons a as ih =>
    rw [List.cons_append, assocGet_cons, assocGet_cons]
    by_cases ha2 : a.1 = k2
    · rw [if_pos ha2, if_pos ha2]
    · rw [if_neg ha2, if_neg ha2]
      exact ih

theorem assocGet_mapReplace_other {V : Type} (l : List (List Nat × V))
    (k k2 : List Nat) (v : V) (hne : k2 ≠ k) :
    assocGet (l.map (fun p => if p.1 = k then (k, v) else p)) k2 =
      assocGet l k2 := by
  induction l with
  | nil => rfl
  | cons a as ih =>
    rw [List.map_cons]
    by_cases ha : a.1 = k
    · have hak2 : a.1 ≠ k2 := fun hc : a.1 = k2 => hne (hc ▸ ha)
      rw [if_pos ha, assocGet_cons, assocGet_cons]
      rw [if_neg (fun hc : k = k2 => hne hc.symm), if_neg hak2]
      exact ih
    · rw [if_neg ha, assocGet_cons, assocGet_cons]
      by_cases ha2 : a.1 = k2
      · rw [if_pos ha2, if_pos ha2]
      · rw [if_neg ha2, if_neg ha2]
        exact ih

theorem assocGet_insert_other {V : Type} (l : List (List Nat × V))
    (k k2 : List Nat) (v : V) (hne : k2 ≠ k) :
    assocGet (assocInsert l k v).2 k2 = assocGet l k2 := by
  unfold assocInsert
  rcases hget : assocGet l k with _ | prev
  · exact assocGet_append_single_other l k k2 v hne
  · exact assocGet_mapReplace_other l k k2 v hne

theorem keys_assocInsert_replace {V : Type} {l : List (List Nat × V)}
    {k : List Nat} {v : V} {prev : V} (hget : assocGet l k = some prev) :
    ((assocInsert l k v).2.map Prod.fst) = l.map Prod.fst := by
  unfold assocInsert
  rw [hget]
  simp only [List.map_map]
  apply List.map_congr_left
  intro p _
  by_cases hk : p.1 = k
  · simp [hk]
  · simp [hk]

theorem keys_assocInsert_fresh {V : Type} {l : List (List Nat × V)}
    {k : List Nat} {v : V} (hget : assocGet l k = none) :
    ((assocInsert l k v).2.map Prod.fst) = l.map Prod.fst ++ [k] := by
  unfold assocInsert
  rw [hget]
  simp

theorem mem_assocRemove {V : Type} {l : List (List Nat × V)}
    {k : List Nat} {p : List Nat × V} (h : p ∈ assocRemove l k) :
    p ∈ l ∧ p.1 ≠ k := by
  unfold assocRemove at h
  have := List.mem_filter.mp h
  simpa using this

theorem assocGet_remove_other {V : Type} (l : List (List Nat × V))
    (k k2 : List Nat) (hne : k2 ≠ k) :
    assocGet (assocRemove l k) k2 = assocGet l k2 := by
  unfold assocRemove
  induction l with
  | nil => rfl
  | cons a as ih =>
    rw [List.filter_cons]
    by_cases ha : a.1 = k
    · rw [if_neg (by simp [ha])]
      rw [ih, assocGet_cons, if_neg (fun hc : a.1 = k2 => hne (hc ▸ ha))]
    · rw [if_pos (by simpa using ha)]
      rw [assocGet_cons, assocGet_cons]
      by_cases ha2 : a.1 = k2
      · rw [if_pos ha2, if_pos ha2]
      · rw [if_neg ha2, if_neg ha2]
        exact ih

theorem keys_assocRemove_sublist {V : Type} (l : List (List Nat × V))
    (k : List Nat) :
    ((assocRemove l k).map Prod.fst).Sublist (l.map Prod.fst) :=
  List.Sublist.map Prod.fst (List.filter_sublist l)

theorem mem_btInsert {x y : Nat × List Nat} {l : List (Nat × List Nat)}
    (h : y ∈ btInsert x l) : y = x ∨ y ∈ l := by
  induction l with
  | nil => simpa [btInsert] using h
  | cons a as ih =>
    rw [btInsert] at h
    by_cases h1 : pairLt x a = true
    · rw [if_pos h1] at h
      rcases List.mem_cons.mp h with h2 | h2
      · exact Or.inl h2
      · exact Or.inr h2
    · rw [if_neg h1] at h
      by_cases h2 : x = a
      · rw [if_pos h2] at h
        exact Or.inr h
      · rw [if_neg h2] at h
        rcases List.mem_cons.mp h with h3 | h3
        · exact Or.inr (h3 ▸ List.mem_cons_self a as)
        · rcases ih h3 with h4 | h4
          · exact Or.inl h4
          · exact Or.inr (List.mem_cons_of_mem a h4)

theorem count_btInsert_self (x : Nat × List Nat) (l : List (Nat × List Nat))
    (h : l.count x = 0) : (btInsert x l).count x = 1 := by
  induction l with
  | nil => simp [btInsert]
  | cons a as ih =>
    rw [List.count_cons] at h
    by_cases hax : (a == x) = true
    · simp [hax] at h
    · simp only [hax, if_false] at h
      have has : as.count x = 0 := by omega
      have hxa : ¬x = a := fun hc => hax (by simp [hc])
      rw [btInsert]
      by_cases h1 : pairLt x a = true
      · rw [if_pos h1]
        simp [List.count_cons, hax, has]
      · rw [if_neg h1, if_neg hxa, List.count_cons, ih has]
        simp [hax]

theorem count_btInsert_other (x z : Nat × List Nat) (l : List (Nat × List Nat))
    (hne : z ≠ x) : (btInsert x l).count z = l.count z := by
  induction l with
  | nil =>
    simp [btInsert, List.count_cons]
    exact fun hc => hne hc.symm
  | cons a as ih =>
    rw [btInsert]
    by_cases h1 : pairLt x a = true
    · rw [if_pos h1]
      have hxz : (x == z) = false := by
        simp
        exact fun hc => hne hc.symm
      simp [List.count_cons, hxz]
    · rw [if_neg h1]
      by_cases h2 : x = a
      · rw [if_pos h2]
      · rw [if_neg h2, List.count_cons, List.count_cons, ih]

theorem count_filter_ne (x y : Nat × List Nat) (l : List (Nat × List Nat))
    (hne : x ≠ y) : (l.filter (fun q => q != y)).count x = l.count x := by
  apply List.count_filter
  simp [hne]

theorem count_filter_self_zero (y : Nat × List Nat) (l : List (Nat × List Nat)) :
    (l.filter (fun q => q != y)).count y = 0 := by
  rw [List.count_eq_zero]
  intro hc
  have := List.mem_filter.mp hc
  simp at this

theorem count_btRemove_ne (x y : Nat × List Nat) (l : List (Nat × List Nat))
    (hne : x ≠ y) : (btRemove y l).count x = l.count x :=
  count_filter_ne x y l hne

theorem count_btRemove_self (y : Nat × List Nat) (l : List (Nat × List Nat)) :
    (btRemove y l).count y = 0 :=
  count_filter_self_zero y l

theorem mem_btRemove {x y : Nat × List Nat} {l : List (Nat × List Nat)}
    (h : y ∈ btRemove x l) : y ∈ l ∧ y ≠ x := by
  unfold btRemove at h
  have := List.mem_filter.mp h
  simpa using this

/-- In a list sorted by `pairLt`, the head instant is the minimum of all
instants in the index. -/
theorem pairLt_imp_fst_le {a b : Nat × List Nat} (h : pairLt a b = true) :
    a.1 ≤ b.1 := by
  unfold pairLt at h
  by_cases h1 : a.1 < b.1
  · exact Nat.le_of_lt h1
  · rw [if_neg h1] at h
    by_cases h2 : a.1 = b.1
    · exact Nat.le_of_eq h2
    · rw [if_neg h2] at h
      simp at h

theorem sorted_min_eq_head {p : Nat × List Nat} {rest : List (Nat × List Nat)}
    (hs : (p :: rest).Pairwise (fun a b => pairLt a b = true)) :
    ((p :: rest).map Prod.fst).min? = some p.1 := by
  rw [List.min?_eq_some_iff']
  constructor
  · simp
  · intro b hb
    rcases List.mem_map.mp hb with ⟨q, hq, hqb⟩
    rcases List.mem_cons.mp hq with h1 | h1
    · rw [← hqb, h1]
    · have := (List.pairwise_cons.mp hs).1 q h1
      have := pairLt_imp_fst_le this
      omega

theorem assocInsert_fst {V : Type} (l : List (List Nat × V)) (k : List Nat)
    (v : V) : (assocInsert l k v).1 = assocGet l k := by
  unfold assocInsert
  rcases assocGet l k with _ | prev <;> rfl

/-- The state produced by `Db::set`, in closed form. -/
theorem dbSet_result (s : DbState) (now : Nat) (key value : List Nat)
    (expire : Option Duration) :
    (dbSet s now key value expire).1 =
      { s with
        entries := (assocInsert s.entries key
          (Entry.mk value (expire.map (fun d => now + d)))).2,
        expirations :=
          (let exps1 :=
            match assocGet s.entries key with
            | some prev =>
              match prev.expires_at with
              | some w => btRemove (w, key) s.expirations
              | none => s.expirations
            | none => s.expirations
          match expire with
          | some d => btInsert (now + d, key) exps1
          | none => exps1) } := by
  unfold dbSet
  cases expire with
  | none => simp [assocInsert_fst]
  | some d => simp [assocInsert_fst]

theorem keysNodup_assocInsert {V : Type} {l : List (List Nat × V)}
    (h : KeysNodup l) (k : List Nat) (v : V) :
    KeysNodup (assocInsert l k v).2 := by
  unfold KeysNodup at h ⊢
  rcases hget : assocGet l k with _ | prev
  · rw [keys_assocInsert_fresh hget]
    have hk : k ∉ l.map Prod.fst := by
      intro hc
      rcases List.mem_map.mp hc with ⟨p, hp, hpk⟩
      exact assocGet_none_not_mem hget p hp hpk
    simp [List.nodup_append, h, hk]
  · rw [keys_assocInsert_replace hget]
    exact h

theorem noDangling_key_expiry {s : DbState} (hdang : NoDangling s)
    {q : Nat × List Nat} (hq : q ∈ s.expirations) {e : Entry}
    (hget : assocGet s.entries q.2 = some e) : e.expires_at = some q.1 := by
  obtain ⟨e0, hg0, hx0⟩ := hdang q hq
  rw [hget] at hg0
  injection hg0 with h0
  exact h0 ▸ hx0

/-- `Db::set` preserves the expiration-index invariant. -/
theorem inv_dbSet (s : DbState) (h : Inv s) (now : Nat) (key value : List Nat)
    (expire : Option Duration) : Inv (dbSet s now key value expire).1 := by
  obtain ⟨hnd, honce, hdang⟩ := h
  rw [dbSet_result]
  rcases hget : assocGet s.entries key with _ | prevE
  · -- fresh key
    cases expire with
    | none =>
      simp only [hget, Option.map_none']
      refine ⟨keysNodup_assocInsert hnd key _, ?_, ?_⟩
      · intro p hp t hpt
        dsimp only at hp ⊢
        rcases mem_assocInsert hp with hpe | ⟨hpE, hpk⟩
        · rw [hpe] at hpt
          simp at hpt
        · exact honce p hpE t hpt
      · intro q hq
        dsimp only at hq ⊢
        have hqk : q.2 ≠ key := by
          intro hc
          obtain ⟨e0, hg0, _⟩ := hdang q hq
          rw [hc, hget] at hg0
          exact Option.noConfusion hg0
        obtain ⟨e0, hg0, hx0⟩ := hdang q hq
        exact ⟨e0, (assocGet_insert_other _ _ _ _ hqk).trans hg0, hx0⟩
    | some d =>
      simp only [hget, Option.map_some']
      refine ⟨keysNodup_assocInsert hnd key _, ?_, ?_⟩
      · intro p hp t hpt
        dsimp only at hp ⊢
        have hnotmem : (now + d, key) ∉ s.expirations := by
          intro hc
          obtain ⟨e0, hg0, _⟩ := hdang _ hc
          rw [hget] at hg0
          exact Option.noConfusion hg0
        rcases mem_assocInsert hp with hpe | ⟨hpE, hpk⟩
        · rw [hpe] at hpt
          simp at hpt
          rw [hpe]
          rw [← hpt]
          exact count_btInsert_self _ _ (List.count_eq_zero.mpr hnotmem)
        · rw [count_btInsert_other _ (t, p.1) _ (fun hc => hpk (congrArg Prod.snd hc))]
          exact honce p hpE t hpt
      · intro q hq
        dsimp only at hq ⊢
        rcases mem_btInsert hq with hqe | hqX
        · refine ⟨Entry.mk value (some (now + d)), ?_, by simp [hqe]⟩
          rw [hqe]
          exact assocGet_insert_self _ _ _
        · have hqk : q.2 ≠ key := by
            intro hc
            obtain ⟨e0, hg0, _⟩ := hdang q hqX
            rw [hc, hget] at hg0
            exact Option.noConfusion hg0
          obtain ⟨e0, hg0, hx0⟩ := hdang q hqX
          exact ⟨e0, (assocGet_insert_other _ _ _ _ hqk).trans hg0, hx0⟩
  · -- replacing an existing entry
    rcases hw : prevE.expires_at with _ | w
    · -- previous entry had no expiry
      cases expire with
      | none =>
        simp only [hget, hw, Option.map_none']
        refine ⟨keysNodup_assocInsert hnd key _, ?_, ?_⟩
        · intro p hp t hpt
          dsimp only at hp ⊢
          rcases mem_assocInsert hp with hpe | ⟨hpE, hpk⟩
          · rw [hpe] at hpt
            simp at hpt
          · exact honce p hpE t hpt
        · intro q hq
          dsimp only at hq ⊢
          have hqk : q.2 ≠ key := by
            intro hc
            have := noDangling_key_expiry hdang hq (hc ▸ hget)
            rw [hw] at this
            exact Option.noConfusion this
          obtain ⟨e0, hg0, hx0⟩ := hdang q hq
          exact ⟨e0, (assocGet_insert_other _ _ _ _ hqk).trans hg0, hx0⟩
      | some d =>
        simp only [hget, hw, Option.map_some']
        refine ⟨keysNodup_assocInsert hnd key _, ?_, ?_⟩
        · intro p hp t hpt
          dsimp only at hp ⊢
          have hnotmem : (now + d, key) ∉ s.expirations := by
            intro hc
            have := noDangling_key_expiry hdang hc hget
            rw [hw] at this
            exact Option.noConfusion this
          rcases mem_assocInsert hp with hpe | ⟨hpE, hpk⟩
          · rw [hpe] at hpt
            simp at hpt
            rw [hpe, ← hpt]
            exact count_btInsert_self _ _ (List.count_eq_zero.mpr hnotmem)
          · rw [count_btInsert_other _ (t, p.1) _ (fun hc => hpk (congrArg Prod.snd hc))]
            exact honce p hpE t hpt
        · intro q hq
          dsimp only at hq ⊢
          rcases mem_btInsert hq with hqe | hqX
          · refine ⟨Entry.mk value (some (now + d)), ?_, by simp [hqe]⟩
            rw [hqe]
            exact assocGet_insert_self _ _ _
          · have hqk : q.2 ≠ key := by
              intro hc
              have := noDangling_key_expiry hdang hqX (hc ▸ hget)
              rw [hw] at this
              exact Option.noConfusion this
            obtain ⟨e0, hg0, hx0⟩ := hdang q hqX
            exact ⟨e0, (assocGet_insert_other _ _ _ _ hqk).trans hg0, hx0⟩
    · -- previous entry had expiry instant w
      cases expire with
      | none =>
        simp only [hget, hw, Option.map_none']
        refine ⟨keysNodup_assocInsert hnd key _, ?_, ?_⟩
        · intro p hp t hpt
          dsimp only at hp ⊢
          rcases mem_assocInsert hp with hpe | ⟨hpE, hpk⟩
          · rw [hpe] at hpt
            simp at hpt
          · rw [count_btRemove_ne (t, p.1) (w, key) _ (fun hc => hpk (congrArg Prod.snd hc))]
            exact honce p hpE t hpt
        · intro q hq
          dsimp only at hq ⊢
          obtain ⟨hqX, hqw⟩ := mem_btRemove hq
          have hqk : q.2 ≠ key := by
            intro hc
            have := noDangling_key_expiry hdang hqX (hc ▸ hget)
            rw [hw] at this
            injection this with hqw2
            exact hqw (Prod.ext hqw2.symm hc)
          obtain ⟨e0, hg0, hx0⟩ := hdang q hqX
          exact ⟨e0, (assocGet_insert_other _ _ _ _ hqk).trans hg0, hx0⟩
      | some d =>
        simp only [hget, hw, Option.map_some']
        refine ⟨keysNodup_assocInsert hnd key _, ?_, ?_⟩
        · intro p hp t hpt
          dsimp only at hp ⊢
          have hzero : (btRemove (w, key) s.expirations).count (now + d, key) = 0 := by
            by_cases hwd : now + d = w
            · rw [hwd]
              exact count_btRemove_self _ _
            · rw [count_btRemove_ne (now + d, key) (w, key) _
                (fun hc => hwd (congrArg Prod.fst hc))]
              rw [List.count_eq_zero]
              intro hc
              have := noDangling_key_expiry hdang hc hget
              rw [hw] at this
              injection this with h2
              exact hwd h2.symm
          rcases mem_assocInsert hp with hpe | ⟨hpE, hpk⟩
          · rw [hpe] at hpt
            simp at hpt
            rw [hpe, ← hpt]
            exact count_btInsert_self _ _ hzero
          · rw [count_btInsert_other _ (t, p.1) _ (fun hc => hpk (congrArg Prod.snd hc))]
            rw [count_btRemove_ne (t, p.1) (w, key) _ (fun hc => hpk (congrArg Prod.snd hc))]
            exact honce p hpE t hpt
        · intro q hq
          dsimp only at hq ⊢
          rcases mem_btInsert hq with hqe | hqR
          · refine ⟨Entry.mk value (some (now + d)), ?_, by simp [hqe]⟩
            rw [hqe]
            exact assocGet_insert_self _ _ _
          · obtain ⟨hqX, hqw⟩ := mem_btRemove hqR
            have hqk : q.2 ≠ key := by
              intro hc
              have := noDangling_key_expiry hdang hqX (hc ▸ hget)
              rw [hw] at this
              injection this with hqw2
              exact hqw (Prod.ext hqw2.symm hc)
            obtain ⟨e0, hg0, hx0⟩ := hdang q hqX
            exact ⟨e0, (assocGet_insert_other _ _ _ _ hqk).trans hg0, hx0⟩

theorem purgeGo_succ (now f : Nat) (entries : List (List Nat × Entry))
    (exps : List (Nat × List Nat)) :
    purgeGo now (f + 1) entries exps =
      match exps with
      | [] => (none, entries, exps)
      | (when, key) :: _ =>
        if when > now then (some when, entries, exps)
        else purgeGo now f (assocRemove entries key) (btRemove (when, key) exps) := rfl

/-- The purge loop preserves the expiration-index invariant. -/
theorem inv_purgeGo (pubs : List (List Nat × Nat)) (sd : Bool) (now fuel : Nat) :
    ∀ entries exps, Inv (DbState.mk entries pubs exps sd) →
      Inv (DbState.mk (purgeGo now fuel entries exps).2.1 pubs
        (purgeGo now fuel entries exps).2.2 sd) := by
  induction fuel with
  | zero =>
    intro entries exps h
    exact h
  | succ f ih =>
    intro entries exps h
    rw [purgeGo_succ]
    cases exps with
    | nil => exact h
    | cons q rest =>
      obtain ⟨when, key⟩ := q
      dsimp only
      by_cases hnow : when > now
      · rw [if_pos hnow]
        exact h
      · rw [if_neg hnow]
        apply ih
        obtain ⟨hnd, honce, hdang⟩ := h
        refine ⟨?_, ?_, ?_⟩
        · exact List.Nodup.sublist (keys_assocRemove_sublist _ _) hnd
        · intro p hp t hpt
          dsimp only at hp ⊢
          obtain ⟨hpE, hpk⟩ := mem_assocRemove hp
          rw [count_btRemove_ne (t, p.1) (when, key) _
            (fun hc => hpk (congrArg Prod.snd hc))]
          exact honce p hpE t hpt
        · intro q2 hq2
          dsimp only at hq2 ⊢
          obtain ⟨hq2X, hq2ne⟩ := mem_btRemove hq2
          have hq2k : q2.2 ≠ key := by
            intro hc
            obtain ⟨e0, hg0, hx0⟩ := hdang q2 hq2X
            obtain ⟨e1, hg1, hx1⟩ := hdang (when, key)
              (List.mem_cons_self _ _)
            rw [hc] at hg0
            rw [hg1] at hg0
            injection hg0 with he
            rw [he] at hx1
            rw [hx0] at hx1
            injection hx1 with ht
            exact hq2ne (Prod.ext ht hc)
          obtain ⟨e0, hg0, hx0⟩ := hdang q2 hq2X
          exact ⟨e0, (assocGet_remove_other _ _ _ hq2k).trans hg0, hx0⟩

/-- `Shared::purge_expired_keys` preserves the invariant. -/
theorem inv_purgeExpiredKeys (s : DbState) (h : Inv s) (now : Nat) :
    Inv (purgeExpiredKeys s now).2 := by
  unfold purgeExpiredKeys
  by_cases hsd : s.shutdown
  · rw [if_pos hsd]
    exact h
  · rw [if_neg hsd]
    exact inv_purgeGo s.pubSub s.shutdown now (s.expirations.length + 1)
      s.entries s.expirations h

/-- `Db::subscibe` touches only the pub/sub registry, leaving the
key-space and the expiration index untouched. -/
theorem inv_dbSubscibe (s : DbState) (h : Inv s) (key : List Nat) :
    Inv (dbSubscibe s key) := by
  obtain ⟨a, b, c⟩ := h
  unfold dbSubscibe
  rcases assocGet s.pubSub key with _ | n
  · exact ⟨a, fun p hp t ht => b p hp t ht, fun q hq => c q hq⟩
  · exact ⟨a, fun p hp t ht => b p hp t ht, fun q hq => c q hq⟩

/-! ### Claim C3 -/

/-- Claim C3: every store operation preserves the expiration-index
invariant: each entry with `expires_at = Some t` has `(t, key)` exactly
once in the index, and no index pair references an absent key or one
without that expiry. `set`, `get`, `publish`, `subscribe` and one
invocation of the purge routine each preserve it (`get` and `publish`
return the state unchanged). -/
theorem c3_store_ops_preserve_invariant (s : DbState) (h : Inv s) :
    (∀ now key value expire, Inv (dbSet s now key value expire).1) ∧
    (∀ key, Inv (dbGetOp s key).2) ∧
    (∀ channel message, Inv (dbPublishOp s channel message).2) ∧
    (∀ channel, Inv (dbSubscibe s channel)) ∧
    (∀ now, Inv (purgeExpiredKeys s now).2) :=
  ⟨fun now key value expire => inv_dbSet s h now key value expire,
   fun _ => h,
   fun _ _ => h,
   fun channel => inv_dbSubscibe s h channel,
   fun now => inv_purgeExpiredKeys s h now⟩

/-- Witness for C3: a concrete store satisfying the invariant, fed
through the theorem for a `set` with expiry and a purge step. -/
theorem c3_witness :
    Inv ((dbSet (DbState.mk [([107], Entry.mk [118] (some 5))] [] [(5, [107])] false)
        10 [200] [1] (some 7)).1) ∧
    Inv ((purgeExpiredKeys
        (DbState.mk [([107], Entry.mk [118] (some 5))] [] [(5, [107])] false) 10).2) := by
  have hinv : Inv (DbState.mk [([107], Entry.mk [118] (some 5))] [] [(5, [107])] false) := by
    refine ⟨by unfold KeysNodup; decide, ?_, ?_⟩
    · intro p hp t hpt
      simp only [List.mem_singleton] at hp
      subst hp
      simp only at hpt
      injection hpt with ht
      subst ht
      decide
    · intro q hq
      simp only [List.mem_singleton] at hq
      subst hq
      exact ⟨Entry.mk [118] (some 5), rfl, rfl⟩
  exact ⟨(c3_store_ops_preserve_invariant _ hinv).1 10 [200] [1] (some 7),
    (c3_store_ops_preserve_invariant _ hinv).2.2.2.2 10⟩

/-! ### Claim C8 -/

/-- Claim C8: `Db::get` never modifies the shared state; the operation
returns the state it was given unchanged, and an entry whose expiry
instant has already passed (`t ≤ now`) is not removed inline: its value
is still returned. -/
theorem c8_get_pure (s : DbState) (key : List Nat) :
    (dbGetOp s key).2 = s ∧
      (∀ now t e, assocGet s.entries key = some e → e.expires_at = some t →
        t ≤ now → (dbGetOp s key).1 = some e.data) := by
  refine ⟨rfl, ?_⟩
  intro now t e hget _ _
  simp [dbGetOp, dbGet, hget]

/-- Witness for C8: a concrete store whose single entry expired at
instant 5; at `now = 10` the value is still returned and the state is
unchanged. -/
theorem c8_witness :
    (dbGetOp (DbState.mk [([107], Entry.mk [118] (some 5))] [] [(5, [107])] false)
        [107]).2 =
      DbState.mk [([107], Entry.mk [118] (some 5))] [] [(5, [107])] false ∧
    (dbGetOp (DbState.mk [([107], Entry.mk [118] (some 5))] [] [(5, [107])] false)
        [107]).1 = some [118] := by
  refine ⟨(c8_get_pure _ _).1, ?_⟩
  exact (c8_get_pure _ _).2 10 5 (Entry.mk [118] (some 5)) rfl rfl (by decide)

/-! ### Claim C1 -/

/-- Counterexample for claim C1: for the concrete frame
`SET k v xx` (an option token other than EX/PX), the handler loop does
not write an Error frame and continue; `Command::from_frame` fails, the
`?` in `Handler::run` propagates the error, and the connection is
terminated with no reply written. -/
theorem c1_set_bad_option_counterexample :
    handleFrame (DbState.mk [] [] [] false) 0
        (.array [.bulk SETN, .bulk [107], .bulk [118], .bulk [120, 120]]) =
      .error .setOptionUnsupported := rfl

/-- Amended claim C1: when a SET command carries an option token other
than EX or PX, `Set::parse_frames` returns the unsupported-option error;
`Handler::run` propagates it, so the connection is terminated and no
Error frame is written to the client (in contrast with unknown command
names, which are answered with an Error frame). -/
theorem c1_set_bad_option_terminates (s : DbState) (now : Nat)
    (key value opt : List Nat) (rest : List Frame)
    (hk : utf8Valid key = true) (hv : utf8Valid value = true)
    (ho : utf8Valid opt = true)
    (hex : uppercase opt ≠ EXN) (hpx : uppercase opt ≠ PXN) :
    handleFrame s now
        (.array ([.bulk SETN, .bulk key, .bulk value, .bulk opt] ++ rest)) =
      .error .setOptionUnsupported := by
  unfold handleFrame
  simp only [List.cons_append, List.nil_append]
  rw [fromFrame_set_cons]
  unfold setParseFrames
  simp only [nextString, parseNext, hk, hv, ho, if_true]
  rw [if_neg hex, if_neg hpx]
  rfl

/-- Witness for C1 at a concrete store and frame. -/
theorem c1_witness :
    handleFrame (DbState.mk [] [] [] false) 7
        (.array ([.bulk SETN, .bulk [107], .bulk [118], .bulk [88, 88]] ++ [])) =
      .error .setOptionUnsupported :=
  c1_set_bad_option_terminates (DbState.mk [] [] [] false) 7 [107] [118] [88, 88] []
    rfl rfl rfl (by decide) (by decide)

/-! ### Claim C2 -/

/-- Counterexample for claim C2: in pub/sub mode a PING command is not
accepted; `handle_command` answers it with the Unknown error frame
(`ERR unknown command 'ping'`), exactly as any other non-subscribe
command. (A `QUIT` command does not exist at all: it decodes as
`Unknown` and gets the same error reply.) -/
theorem c2_pubsub_counterexample :
    handleCommand (.array [.bulk PINGN]) [] [] =
      .ok ([], [], [.error (errUnknown PINGN)]) := rfl

/-- Amended claim C2: after SUBSCRIBE has put a connection into pub/sub
mode, only SUBSCRIBE and UNSUBSCRIBE are accepted; every other decoded
command — including PING and a hypothetical QUIT — is answered with the
Unknown error frame carrying the command's name, the subscription state
is unchanged, and the connection is not closed (`handle_command` returns
`Ok`). -/
theorem c2_pubsub_unknown_reply (frame : Frame) (cmd : Command)
    (subTo subs : List (List Nat))
    (hdec : fromFrame frame = .ok cmd)
    (hsub : ∀ cs, cmd ≠ .subcribe cs)
    (hunsub : ∀ cs, cmd ≠ .unsubscribe cs) :
    handleCommand frame subTo subs =
      .ok (subTo, subs, [.error (errUnknown cmd.getName)]) := by
  unfold handleCommand
  rw [hdec]
  cases cmd with
  | subcribe cs => exact absurd rfl (hsub cs)
  | unsubscribe cs => exact absurd rfl (hunsub cs)
  | get k => rfl
  | publish a b => rfl
  | set a b c => rfl
  | ping m => rfl
  | unknown n => rfl

/-- Witness for C2: the PING frame in pub/sub mode with one active
subscription gets the Unknown error reply and leaves the state alone. -/
theorem c2_witness :
    handleCommand (.array [.bulk PINGN]) [[104]] [[105]] =
      .ok ([[104]], [[105]], [.error (errUnknown PINGN)]) :=
  c2_pubsub_unknown_reply (.array [.bulk PINGN]) (.ping none) [[104]] [[105]] rfl
    (fun cs => by simp) (fun cs => by simp)

/-! ### Claim C4 -/

/-- The conditions under which a client-constructed command round-trips
(the amended claim C4). Rust `String` fields (keys, channels) are valid
UTF-8 by construction. Beyond that: the SET value must be valid UTF-8
(the server decodes it with `next_string`); a SET TTL must be a whole
number of milliseconds, below `2 ^ 64` of them (it is encoded as
`as_millis() as u64` and decoded with `Duration::from_millis`); and a
SUBSCRIBE must carry at least one channel (`parse_frames` demands one).
`Unknown` has no encoder. -/
def ClientSafe : Command → Prop
  | .get key => utf8Valid key = true
  | .publish channel _ => utf8Valid channel = true
  | .set key value expire =>
    utf8Valid key = true ∧ utf8Valid value = true ∧
      (∀ d, expire = some d → d % 1000000 = 0 ∧ d / 1000000 < 2 ^ 64)
  | .subcribe channels => channels ≠ [] ∧ ∀ c ∈ channels, utf8Valid c = true
  | .unsubscribe channels => ∀ c ∈ channels, utf8Valid c = true
  | .ping _ => True
  | .unknown _ => False

theorem stringLoop_bulk (chans : List (List Nat)) (acc : List (List Nat))
    (h : ∀ c ∈ chans, utf8Valid c = true) :
    stringLoop (chans.map Frame.bulk) acc = .ok (acc ++ chans, []) := by
  induction chans generalizing acc with
  | nil => simp [stringLoop]
  | cons c cs ih =>
    rw [List.map_cons]
    simp only [stringLoop, h c (List.mem_cons_self c cs), if_true]
    rw [ih (acc ++ [c]) (fun x hx => h x (List.mem_cons_of_mem c hx))]
    simp

/-- Counterexample for claim C4: the client can construct a `Set` whose
TTL is 500 nanoseconds; `into_frame` encodes the TTL as whole
milliseconds (`as_millis() as u64`), so decoding yields a TTL of 0 ms —
a different command. -/
theorem c4_roundtrip_counterexample :
    fromFrame (Command.intoFrame (.set [107] [118] (some 500))) =
      .ok (.set [107] [118] (some 0)) ∧
    Command.set [107] [118] (some 0) ≠ Command.set [107] [118] (some 500) :=
  ⟨rfl, by decide⟩

/-- Amended claim C4: `Command::from_frame ∘ into_frame` is the identity
on every client-constructible command satisfying `ClientSafe`: any Get,
Publish, Ping (with or without message) and Unsubscribe; Subscribe with
at least one channel; and Set whose value is valid UTF-8 and whose TTL,
if present, is a whole number of milliseconds below `2 ^ 64` ms. -/
theorem c4_roundtrip (cmd : Command) (h : ClientSafe cmd) :
    fromFrame cmd.intoFrame = .ok cmd := by
  cases cmd with
  | get key =>
    have hk : utf8Valid key = true := h
    rw [Command.intoFrame, fromFrame_get_cons]
    simp [getParseFrames, nextString, parseNext, withFinish, pfinish, hk]
  | publish channel message =>
    have hc : utf8Valid channel = true := h
    rw [Command.intoFrame, fromFrame_publish_cons]
    simp [publishParseFrames, nextString, nextBytes, parseNext, withFinish,
      pfinish, hc]
  | set key value expire =>
    obtain ⟨hk, hv, hd⟩ := h
    cases expire with
    | none =>
      rw [Command.intoFrame]
      simp only [List.append_nil]
      rw [fromFrame_set_cons]
      unfold setParseFrames
      simp [nextString, parseNext, hk, hv, withFinish, pfinish]
    | some d =>
      obtain ⟨hmod, hlt⟩ := hd d rfl
      rw [Command.intoFrame]
      simp only [List.cons_append, List.nil_append]
      rw [fromFrame_set_cons]
      unfold setParseFrames
      have hpxv : utf8Valid PXLOWER = true := rfl
      simp only [nextString, parseNext, hk, hv, hpxv, if_true]
      have hpxu : uppercase PXLOWER = PXN := rfl
      have hexu : uppercase PXLOWER ≠ EXN := by decide
      rw [if_neg hexu, if_pos hpxu]
      have hms : durationAsMillis d % 2 ^ 64 = d / 1000000 :=
        Nat.mod_eq_of_lt hlt
      simp only [nextInt, parseNext, hms]
      simp only [withFinish, pfinish]
      have : durationFromMillis (d / 1000000) = d := by
        unfold durationFromMillis
        exact Nat.div_mul_cancel (Nat.dvd_of_mod_eq_zero hmod)
      rw [this]
  | subcribe channels =>
    obtain ⟨hne, hall⟩ := h
    cases channels with
    | nil => exact absurd rfl hne
    | cons c cs =>
      rw [Command.intoFrame, fromFrame_subscribe_cons]
      unfold subcribeParseFrames
      rw [List.map_cons]
      simp only [nextString, parseNext, hall c (List.mem_cons_self c cs), if_true]
      rw [stringLoop_bulk cs [c] (fun x hx => hall x (List.mem_cons_of_mem c hx))]
      simp [withFinish, pfinish]
  | unsubscribe channels =>
    rw [Command.intoFrame, fromFrame_unsubscribe_cons]
    unfold unsubscribeParseFrames
    rw [stringLoop_bulk channels [] h]
    simp [withFinish, pfinish]
  | ping msg =>
    cases msg with
    | none => rfl
    | some m => rfl
  | unknown n => exact absurd h (by simp [ClientSafe])

/-- Witness for C4 at concrete commands: a Get with a concrete key and a
Set with a whole-millisecond TTL. -/
theorem c4_witness :
    fromFrame (Command.intoFrame (.get [107])) = .ok (.get [107]) ∧
    fromFrame (Command.intoFrame (.set [107] [118] (some 3000000))) =
      .ok (.set [107] [118] (some 3000000)) := by
  constructor
  · exact c4_roundtrip (.get [107]) rfl
  · exact c4_roundtrip (.set [107] [118] (some 3000000))
      ⟨rfl, rfl, fun d hd => by injection hd with hd2; subst hd2; exact ⟨rfl, by decide⟩⟩

/-! ### Byte-level lemmas for the codec claims -/

/-- Value of an ASCII digit string, most significant digit first. -/
def digitsVal (ds : List Nat) : Nat :=
  ds.foldl (fun a b => a * 10 + (b - 48)) 0

theorem foldl_digits_ge (ds : List Nat) (acc : Nat) :
    acc ≤ ds.foldl (fun a b => a * 10 + (b - 48)) acc := by
  induction ds generalizing acc with
  | nil => exact Nat.le_refl acc
  | cons d rest ih =>
    rw [List.foldl_cons]
    exact le_trans (by omega) (ih (acc * 10 + (d - 48)))

theorem atoiRun_digits (ds : List Nat) (acc : Nat)
    (hd : ∀ c ∈ ds, 48 ≤ c ∧ c ≤ 57)
    (hlt : ds.foldl (fun a b => a * 10 + (b - 48)) acc < 2 ^ 64) :
    atoiRun false acc ds = some (ds.foldl (fun a b => a * 10 + (b - 48)) acc) := by
  induction ds generalizing acc with
  | nil => rfl
  | cons c rest ih =>
    have hc := hd c (List.mem_cons_self _ _)
    have hdig : asciiDigit c = some (c - 48) := by
      unfold asciiDigit
      rw [if_pos hc]
    rw [List.foldl_cons] at hlt ⊢
    have hstep : acc * 10 + (c - 48) < 2 ^ 64 :=
      lt_of_le_of_lt (foldl_digits_ge rest _) hlt
    rw [atoiRun, hdig]
    simp only [Bool.false_eq_true, if_false, if_pos hstep]
    exact ih _ (fun x hx => hd x (List.mem_cons_of_mem c hx)) hlt

theorem atoiRun_digits_overflow (ds : List Nat) (acc : Nat)
    (hd : ∀ c ∈ ds, 48 ≤ c ∧ c ≤ 57) (hacc : acc < 2 ^ 64)
    (hge : 2 ^ 64 ≤ ds.foldl (fun a b => a * 10 + (b - 48)) acc) :
    atoiRun false acc ds = none := by
  induction ds generalizing acc with
  | nil =>
    rw [List.foldl_nil] at hge
    omega
  | cons c rest ih =>
    have hc := hd c (List.mem_cons_self _ _)
    have hdig : asciiDigit c = some (c - 48) := by
      unfold asciiDigit
      rw [if_pos hc]
    rw [List.foldl_cons] at hge
    rw [atoiRun, hdig]
    simp only [Bool.false_eq_true, if_false]
    by_cases hstep : acc * 10 + (c - 48) < 2 ^ 64
    · rw [if_pos hstep]
      exact ih _ (fun x hx => hd x (List.mem_cons_of_mem c hx)) hstep hge
    · rw [if_neg hstep]

theorem atoiU64_digits (ds : List Nat) (hne : ds ≠ [])
    (hd : ∀ c ∈ ds, 48 ≤ c ∧ c ≤ 57) (hlt : digitsVal ds < 2 ^ 64) :
    atoiU64 ds = some (digitsVal ds) := by
  cases ds with
  | nil => exact absurd rfl hne
  | cons c rest =>
    have hc := hd c (List.mem_cons_self _ _)
    have hdig : (asciiDigit c).isSome = true := by
      unfold asciiDigit
      rw [if_pos hc]
      rfl
    unfold atoiU64
    dsimp only
    rw [if_neg (by omega : ¬c = 43), if_neg (by omega : ¬c = 45), if_pos hdig]
    exact atoiRun_digits (c :: rest) 0 hd hlt

theorem atoiU64_digits_overflow (ds : List Nat)
    (hd : ∀ c ∈ ds, 48 ≤ c ∧ c ≤ 57) (hge : 2 ^ 64 ≤ digitsVal ds) :
    atoiU64 ds = none := by
  cases ds with
  | nil =>
    unfold digitsVal at hge
    rw [List.foldl_nil] at hge
    omega
  | cons c rest =>
    have hc := hd c (List.mem_cons_self _ _)
    have hdig : (asciiDigit c).isSome = true := by
      unfold asciiDigit
      rw [if_pos hc]
      rfl
    unfold atoiU64
    dsimp only
    rw [if_neg (by omega : ¬c = 43), if_neg (by omega : ¬c = 45), if_pos hdig]
    exact atoiRun_digits_overflow (c :: rest) 0 hd (by norm_num) hge

theorem lineSplit_exact (pre suf : List Nat) (h : 13 ∉ pre) :
    lineSplit (pre ++ 13 :: 10 :: suf) = some (pre, suf) := by
  induction pre with
  | nil =>
    rw [List.nil_append, lineSplit, if_pos ⟨rfl, rfl⟩]
  | cons a pre2 ih =>
    have h2 : 13 ∉ pre2 := fun hc => h (List.mem_cons_of_mem a hc)
    rw [List.cons_append]
    cases hshape : pre2 ++ 13 :: 10 :: suf with
    | nil => exact absurd hshape (by simp)
    | cons b tail =>
      rw [lineSplit,
        if_neg (fun hc : a = 13 ∧ b = 10 => h (hc.1 ▸ List.mem_cons_self _ _))]
      have hbt : lineSplit (b :: tail) = some (pre2, suf) := hshape ▸ ih h2
      rw [hbt]

theorem getLine_at (src : List Nat) (pos : Nat) (pre suf : List Nat)
    (hdrop : src.drop pos = pre ++ 13 :: 10 :: suf) (h13 : 13 ∉ pre) :
    getLine src pos = some (pre, pos + pre.length + 2) := by
  unfold getLine
  rw [hdrop, lineSplit_exact pre suf h13]

theorem getDecimal_at (src : List Nat) (pos : Nat) (pre suf : List Nat) (v : Nat)
    (hdrop : src.drop pos = pre ++ 13 :: 10 :: suf) (h13 : 13 ∉ pre)
    (hatoi : atoiU64 pre = some v) :
    getDecimal src pos = .ok (v, pos + pre.length + 2) := by
  unfold getDecimal
  rw [getLine_at src pos pre suf hdrop h13]
  dsimp only
  rw [hatoi]

theorem getDecimal_at_bad (src : List Nat) (pos : Nat) (pre suf : List Nat)
    (hdrop : src.drop pos = pre ++ 13 :: 10 :: suf) (h13 : 13 ∉ pre)
    (hatoi : atoiU64 pre = none) :
    getDecimal src pos = .error .bad := by
  unfold getDecimal
  rw [getLine_at src pos pre suf hdrop h13]
  dsimp only
  rw [hatoi]

theorem getU8_cons (b : Nat) (tail : List Nat) :
    getU8 (b :: tail) 0 = some (b, 1) := rfl

theorem digits_no13 {ds : List Nat} (hd : ∀ c ∈ ds, 48 ≤ c ∧ c ≤ 57) :
    13 ∉ ds := by
  intro hc
  have := hd 13 hc
  omega

/-! ### Claim C9 -/

/-- Claim C9: for every input made of `$`, a decimal length field whose
value is the payload length, CRLF, the payload bytes, and any two further
bytes (plus trailing data), `Frame::check` succeeds and `Frame::parse`
returns `Bulk(payload)`: the two bytes after the payload are skipped
without being checked to be CRLF. The side condition bounds the skip
length `len + 2` by the machine word, so the `usize` sum in the source
does not wrap on this input class. -/
theorem c9_bulk_skips_trailing (payload ds rest : List Nat) (b1 b2 : Nat)
    (hne : ds ≠ []) (hd : ∀ c ∈ ds, 48 ≤ c ∧ c ≤ 57)
    (hval : digitsVal ds = payload.length)
    (hlen : payload.length + 2 < 2 ^ 64) :
    frameCheck (36 :: ds ++ 13 :: 10 :: payload ++ b1 :: b2 :: rest) =
      .ok (ds.length + payload.length + 5) ∧
    frameParse (36 :: ds ++ 13 :: 10 :: payload ++ b1 :: b2 :: rest) =
      .ok (.bulk payload, ds.length + payload.length + 5) ∧
    parseFrame (36 :: ds ++ 13 :: 10 :: payload ++ b1 :: b2 :: rest) =
      .frame (.bulk payload) rest := by
  cases ds with
  | nil => exact absurd rfl hne
  | cons d0 ds2 =>
  simp only [List.cons_append, List.append_assoc]
  have hd0 := hd d0 (List.mem_cons_self _ _)
  have hsrclen : (36 :: d0 :: (ds2 ++ 13 :: 10 :: (payload ++ b1 :: b2 :: rest))).length =
      (d0 :: ds2).length + payload.length + rest.length + 5 := by
    simp [List.length_append]
    omega
  have hdrop1 : (36 :: d0 :: (ds2 ++ 13 :: 10 :: (payload ++ b1 :: b2 :: rest))).drop 1 =
      (d0 :: ds2) ++ 13 :: 10 :: (payload ++ b1 :: b2 :: rest) := by
    simp
  have hatoi : atoiU64 (d0 :: ds2) = some payload.length := by
    rw [atoiU64_digits (d0 :: ds2) hne hd (by rw [hval]; omega), hval]
  have hdec := getDecimal_at _ 1 (d0 :: ds2) (payload ++ b1 :: b2 :: rest)
    payload.length hdrop1 (digits_no13 hd) hatoi
  have hdroplen : (36 :: d0 :: (ds2 ++ 13 :: 10 :: (payload ++ b1 :: b2 :: rest))).drop
      (1 + (d0 :: ds2).length + 2) = payload ++ b1 :: b2 :: rest := by
    have h1 : (36 :: d0 :: (ds2 ++ 13 :: 10 :: (payload ++ b1 :: b2 :: rest))) =
        (36 :: d0 :: ds2 ++ [13, 10]) ++ (payload ++ b1 :: b2 :: rest) := by
      simp
    have h2 : (36 :: d0 :: ds2 ++ [13, 10]).length = 1 + (d0 :: ds2).length + 2 := by
      simp
      omega
    rw [h1, ← h2, List.drop_left]
  have hcheck : frameCheck (36 :: d0 :: (ds2 ++ 13 :: 10 :: (payload ++ b1 :: b2 :: rest))) =
      .ok ((d0 :: ds2).length + payload.length + 5) := by
    rw [frameCheck, checkF]
    rw [getU8_cons]
    dsimp only
    rw [if_neg (by decide), if_neg (by decide), if_pos rfl]
    have hpeek : peekU8 (36 :: d0 :: (ds2 ++ 13 :: 10 :: (payload ++ b1 :: b2 :: rest))) 1 =
        some d0 := rfl
    rw [hpeek]
    dsimp only
    rw [if_neg (by omega : ¬d0 = 45)]
    rw [hdec]
    dsimp only
    rw [Nat.mod_eq_of_lt hlen]
    rw [skipN, if_neg (by rw [hsrclen]; omega)]
    have harith : 1 + (d0 :: ds2).length + 2 + (payload.length + 2) =
        (d0 :: ds2).length + payload.length + 5 := by omega
    rw [harith]
  have hparse : frameParse (36 :: d0 :: (ds2 ++ 13 :: 10 :: (payload ++ b1 :: b2 :: rest))) =
      .ok (.bulk payload, (d0 :: ds2).length + payload.length + 5) := by
    rw [frameParse, parseF]
    rw [getU8_cons]
    dsimp only
    rw [if_neg (by decide), if_neg (by decide), if_neg (by decide), if_pos rfl]
    have hpeek : peekU8 (36 :: d0 :: (ds2 ++ 13 :: 10 :: (payload ++ b1 :: b2 :: rest))) 1 =
        some d0 := rfl
    rw [hpeek]
    dsimp only
    rw [if_neg (by omega : ¬d0 = 45)]
    rw [hdec]
    dsimp only
    rw [Nat.mod_eq_of_lt hlen]
    rw [if_neg (by rw [hsrclen]; omega), if_neg (by rw [hsrclen]; omega)]
    rw [hdroplen]
    have htake : (payload ++ b1 :: b2 :: rest).take payload.length = payload :=
      List.take_left payload (b1 :: b2 :: rest)
    rw [htake]
    have harith : 1 + (d0 :: ds2).length + 2 + (payload.length + 2) =
        (d0 :: ds2).length + payload.length + 5 := by omega
    rw [harith]
  refine ⟨hcheck, hparse, ?_⟩
  rw [parseFrame, hcheck]
  dsimp only
  rw [hparse]
  dsimp only
  have hfinal : (36 :: d0 :: (ds2 ++ 13 :: 10 :: (payload ++ b1 :: b2 :: rest))).drop
      ((d0 :: ds2).length + payload.length + 5) = rest := by
    have h1 : (36 :: d0 :: (ds2 ++ 13 :: 10 :: (payload ++ b1 :: b2 :: rest))) =
        (36 :: d0 :: ds2 ++ 13 :: 10 :: payload ++ [b1, b2]) ++ rest := by
      simp
    have h2 : (36 :: d0 :: ds2 ++ 13 :: 10 :: payload ++ [b1, b2]).length =
        (d0 :: ds2).length + payload.length + 5 := by
      simp
      omega
    rw [h1, ← h2, List.drop_left]
  rw [hfinal]

/-- Witness for C9: the buffer `$3 CRLF abc XY` parses as `Bulk "abc"`
although the trailing `XY` is not CRLF. -/
theorem c9_witness :
    frameCheck [36, 51, 13, 10, 97, 98, 99, 88, 89] = .ok 9 ∧
    frameParse [36, 51, 13, 10, 97, 98, 99, 88, 89] = .ok (.bulk [97, 98, 99], 9) ∧
    parseFrame [36, 51, 13, 10, 97, 98, 99, 88, 89] = .frame (.bulk [97, 98, 99]) [] :=
  c9_bulk_skips_trailing [97, 98, 99] [51] [] 88 89 (by decide)
    (by decide) (by decide) (by decide)

/-! ### Check/parse agreement (claims C10 and C6)

With the same fuel, wherever `Frame::check` succeeds, `Frame::parse`
cannot reach the `unimplemented!()` arm, and when it succeeds it stops at
exactly the position `check` computed. -/

theorem getLine_pos {src : List Nat} {pos : Nat} {line : List Nat} {p : Nat}
    (h : getLine src pos = some (line, p)) : p = pos + line.length + 2 := by
  unfold getLine at h
  cases hls : lineSplit (src.drop pos) with
  | none =>
    rw [hls] at h
    exact Option.noConfusion h
  | some r =>
    obtain ⟨l, rr⟩ := r
    rw [hls] at h
    dsimp only at h
    injection h with h2
    rw [Prod.mk.injEq] at h2
    rw [← h2.2, ← h2.1]

theorem skipN_some {src : List Nat} {pos n p : Nat} (h : skipN src pos n = some p) :
    p = pos + n ∧ ¬src.length - pos < n := by
  unfold skipN at h
  by_cases hc : src.length - pos < n
  · rw [if_pos hc] at h
    exact Option.noConfusion h
  · rw [if_neg hc] at h
    exact ⟨(Option.some.inj h).symm, hc⟩

/-- Agreement property for one frame at the given fuel. -/
def CheckParseAgree (src : List Nat) (fuel : Nat) : Prop :=
  ∀ pos k, checkF src fuel pos = .ok k →
    parseF src fuel pos ≠ .error .panicked ∧
      ∀ fr p, parseF src fuel pos = .ok (fr, p) → p = k

/-- Agreement property for array element lists at the given fuel. -/
def CheckParseListAgree (src : List Nat) (fuel : Nat) : Prop :=
  ∀ n pos k, checkList src fuel n pos = .ok k →
    parseList src fuel n pos ≠ .error .panicked ∧
      ∀ frs p, parseList src fuel n pos = .ok (frs, p) → p = k

theorem agree_err {e : PFail} (he : e ≠ .panicked) (k : Nat) :
    (Except.error e : Except PFail (Frame × Nat)) ≠ .error .panicked ∧
      ∀ fr p, (Except.error e : Except PFail (Frame × Nat)) = .ok (fr, p) → p = k :=
  ⟨fun hc => he (by injection hc), fun _ _ hp => Except.noConfusion hp⟩

theorem agree_ok {fr0 : Frame} {p0 k : Nat} (hpk : p0 = k) :
    (Except.ok (fr0, p0) : Except PFail (Frame × Nat)) ≠ .error .panicked ∧
      ∀ fr p, (Except.ok (fr0, p0) : Except PFail (Frame × Nat)) = .ok (fr, p) → p = k :=
  ⟨Except.noConfusion, fun _ p hp => by
    injection hp with hp2
    rw [Prod.mk.injEq] at hp2
    rw [← hp2.2, hpk]⟩

theorem agreeL_err {e : PFail} (he : e ≠ .panicked) (k : Nat) :
    (Except.error e : Except PFail (List Frame × Nat)) ≠ .error .panicked ∧
      ∀ frs p, (Except.error e : Except PFail (List Frame × Nat)) = .ok (frs, p) → p = k :=
  ⟨fun hc => he (by injection hc), fun _ _ hp => Except.noConfusion hp⟩

theorem agreeL_ok {frs0 : List Frame} {p0 k : Nat} (hpk : p0 = k) :
    (Except.ok (frs0, p0) : Except PFail (List Frame × Nat)) ≠ .error .panicked ∧
      ∀ frs p, (Except.ok (frs0, p0) : Except PFail (List Frame × Nat)) = .ok (frs, p) → p = k :=
  ⟨Except.noConfusion, fun _ p hp => by
    injection hp with hp2
    rw [Prod.mk.injEq] at hp2
    rw [← hp2.2, hpk]⟩

theorem checkParseAgree (src : List Nat) :
    ∀ fuel, CheckParseAgree src fuel ∧ CheckParseListAgree src fuel := by
  intro fuel
  induction fuel with
  | zero =>
    constructor
    · intro pos k hk
      rw [checkF] at hk
      exact Except.noConfusion hk
    · intro n pos k hk
      exact Except.noConfusion hk
  | succ f ih =>
    obtain ⟨ihF, ihL⟩ := ih
    constructor
    · intro pos k hk
      rw [checkF] at hk
      rw [parseF]
      cases hu : getU8 src pos with
      | none =>
        rw [hu] at hk
        exact Except.noConfusion hk
      | some bp =>
        obtain ⟨b, pos1⟩ := bp
        rw [hu] at hk
        dsimp only at hk ⊢
        by_cases hb1 : b = 43 ∨ b = 45
        · rw [if_pos hb1] at hk
          cases hgl : getLine src pos1 with
          | none =>
            rw [hgl] at hk
            exact Except.noConfusion hk
          | some lr =>
            obtain ⟨line, p2⟩ := lr
            rw [hgl] at hk
            injection hk with hk2
            rcases hb1 with hb | hb
            · rw [if_pos hb]
              dsimp only
              by_cases hu8 : utf8Valid line = true
              · rw [if_pos hu8]
                exact agree_ok hk2
              · rw [if_neg hu8]
                exact agree_err (by decide) k
            · have hb43 : ¬b = 43 := by omega
              rw [if_neg hb43, if_pos hb]
              dsimp only
              by_cases hu8 : utf8Valid line = true
              · rw [if_pos hu8]
                exact agree_ok hk2
              · rw [if_neg hu8]
                exact agree_err (by decide) k
        · rw [if_neg hb1] at hk
          have hb43 : ¬b = 43 := fun hc => hb1 (Or.inl hc)
          have hb45 : ¬b = 45 := fun hc => hb1 (Or.inr hc)
          rw [if_neg hb43, if_neg hb45]
          by_cases hb58 : b = 58
          · rw [if_pos hb58] at hk
            rw [if_pos hb58]
            cases hgd : getDecimal src pos1 with
            | error e =>
              rw [hgd] at hk
              exact Except.noConfusion hk
            | ok vp =>
              obtain ⟨v, p2⟩ := vp
              rw [hgd] at hk
              injection hk with hk2
              dsimp only
              exact agree_ok hk2
          · rw [if_neg hb58] at hk
            rw [if_neg hb58]
            by_cases hb36 : b = 36
            · rw [if_pos hb36] at hk
              rw [if_pos hb36]
              cases hpk : peekU8 src pos1 with
              | none =>
                rw [hpk] at hk
                exact Except.noConfusion hk
              | some c =>
                rw [hpk] at hk
                dsimp only at hk ⊢
                by_cases hc45 : c = 45
                · rw [if_pos hc45] at hk
                  rw [if_pos hc45]
                  cases hsk : skipN src pos1 4 with
                  | none =>
                    rw [hsk] at hk
                    exact Except.noConfusion hk
                  | some p =>
                    rw [hsk] at hk
                    injection hk with hk2
                    have hp4 := (skipN_some hsk).1
                    cases hgl : getLine src pos1 with
                    | none => exact agree_err (by decide) k
                    | some lr =>
                      obtain ⟨line, p3⟩ := lr
                      dsimp only
                      by_cases hl : line = [45, 49]
                      · rw [if_pos hl]
                        have hp3 := getLine_pos hgl
                        rw [hl] at hp3
                        exact agree_ok (by
                          rw [hp3, ← hk2, hp4]
                          rfl)
                      · rw [if_neg hl]
                        exact agree_err (by decide) k
                · rw [if_neg hc45] at hk
                  rw [if_neg hc45]
                  cases hgd : getDecimal src pos1 with
                  | error e =>
                    rw [hgd] at hk
                    exact Except.noConfusion hk
                  | ok lp =>
                    obtain ⟨len, pos2⟩ := lp
                    rw [hgd] at hk
                    dsimp only at hk ⊢
                    cases hsk : skipN src pos2 ((len + 2) % 2 ^ 64) with
                    | none =>
                      rw [hsk] at hk
                      exact Except.noConfusion hk
                    | some p =>
                      rw [hsk] at hk
                      injection hk with hk2
                      obtain ⟨hp2, hrem⟩ := skipN_some hsk
                      rw [if_neg hrem]
                      by_cases hsp : src.length - pos2 < len
                      · rw [if_pos hsp]
                        exact agree_err (by decide) k
                      · rw [if_neg hsp]
                        exact agree_ok (by rw [← hk2, hp2])
            · rw [if_neg hb36] at hk
              rw [if_neg hb36]
              by_cases hb42 : b = 42
              · rw [if_pos hb42] at hk
                rw [if_pos hb42]
                cases hgd : getDecimal src pos1 with
                | error e =>
                  rw [hgd] at hk
                  exact Except.noConfusion hk
                | ok cp =>
                  obtain ⟨cnt, pos2⟩ := cp
                  rw [hgd] at hk
                  dsimp only at hk ⊢
                  obtain ⟨hnp, hend⟩ := ihL cnt pos2 k hk
                  cases hpl : parseList src f cnt pos2 with
                  | error e =>
                    exact agree_err (fun hc => hnp (hc ▸ hpl)) k
                  | ok ip =>
                    obtain ⟨items, p⟩ := ip
                    dsimp only
                    exact agree_ok (hend items p hpl)
              · rw [if_neg hb42] at hk
                exact Except.noConfusion hk
    · intro n pos k hk
      rw [checkList.eq_def] at hk
      rw [parseList.eq_def]
      dsimp only at hk ⊢
      cases n with
      | zero =>
        injection hk with hk2
        exact agreeL_ok hk2
      | succ m =>
        dsimp only at hk ⊢
        cases hcf : checkF src f pos with
        | error e =>
          rw [hcf] at hk
          exact Except.noConfusion hk
        | ok p1 =>
          rw [hcf] at hk
          obtain ⟨hnpF, hendF⟩ := ihF pos p1 hcf
          cases hpf : parseF src f pos with
          | error e =>
            exact agreeL_err (fun hc => hnpF (hc ▸ hpf)) k
          | ok fp =>
            obtain ⟨fr, p⟩ := fp
            have hp1 : p = p1 := hendF fr p hpf
            dsimp only
            rw [hp1]
            obtain ⟨hnpL, hendL⟩ := ihL m p1 k hk
            cases hpl : parseList src f m p1 with
            | error e =>
              exact agreeL_err (fun hc => hnpL (hc ▸ hpl)) k
            | ok ip =>
              obtain ⟨items, p2⟩ := ip
              dsimp only
              exact agreeL_ok (hendL items p2 hpl)

/-! ### Claim C10 -/

/-- Counterexample for claim C10: on the 23-byte buffer
`$18446744073709551614 CRLF` the length field is `2 ^ 64 - 2`, so the
`usize` sum `len + 2` wraps to `0` in release builds: `Frame::check`
accepts the buffer (its final skip covers zero bytes), while
`Frame::parse` passes the defeated remaining-length guard and panics on
the out-of-bounds slice `&src.chunk()[..len]` — a check-accepted input
on which parse panics, crashing the connection task. -/
theorem c10_counterexample :
    frameCheck [36, 49, 56, 52, 52, 54, 55, 52, 52, 48, 55, 51, 55, 48, 57, 53,
        53, 49, 54, 49, 52, 13, 10] = .ok 23 ∧
    frameParse [36, 49, 56, 52, 52, 54, 55, 52, 52, 48, 55, 51, 55, 48, 57, 53,
        53, 49, 54, 49, 52, 13, 10] = .error .slicePanic ∧
    parseFrame [36, 49, 56, 52, 52, 54, 55, 52, 52, 48, 55, 51, 55, 48, 57, 53,
        53, 49, 54, 49, 52, 13, 10] = .crashed :=
  ⟨rfl, rfl, rfl⟩

/-- Amended claim C10: on every byte sequence accepted by `Frame::check`,
`Frame::parse` never reaches the `unimplemented!()` arm — `check` has
rejected every tag outside `+ - : $ *` — and the only way parse can
panic on such input (crashing the connection task through
`Connection::parse_frame`) is the bulk slice copy, whose
remaining-length guard is defeated exactly when the `usize` computation
`len + 2` of the skip length wraps. -/
theorem c10_check_ok_no_unimplemented (src : List Nat) (k : Nat)
    (h : frameCheck src = .ok k) :
    frameParse src ≠ .error .panicked ∧
      (parseFrame src = .crashed → frameParse src = .error .slicePanic) := by
  have hA := (checkParseAgree src (src.length + 1)).1 0 k h
  refine ⟨hA.1, ?_⟩
  intro hc
  rw [parseFrame, h] at hc
  dsimp only at hc
  cases hp : frameParse src with
  | ok fp =>
    obtain ⟨f2, p⟩ := fp
    rw [hp] at hc
    exact ReadOutcome.noConfusion hc
  | error e =>
    rw [hp] at hc
    cases e with
    | incomplete => exact ReadOutcome.noConfusion hc
    | bad => exact ReadOutcome.noConfusion hc
    | panicked => exact absurd hp hA.1
    | slicePanic => rfl

/-- Witness for C10 on the concrete accepted buffer `+OK CRLF`. -/
theorem c10_witness :
    frameParse [43, 79, 75, 13, 10] ≠ .error .panicked ∧
      (parseFrame [43, 79, 75, 13, 10] = .crashed →
        frameParse [43, 79, 75, 13, 10] = .error .slicePanic) :=
  c10_check_ok_no_unimplemented [43, 79, 75, 13, 10] 5 rfl

/-! ### Claim C6 -/

/-- Claim C6: whenever `read_frame`'s `parse_frame` succeeds with a frame,
the buffer advances by exactly the frame's encoding length — the `check`
length it advances by coincides with the position `parse` stopped at —
and the trailing bytes remain buffered for the next call. -/
theorem c6_read_frame_consumes_exactly (buffer rest : List Nat) (f : Frame)
    (h : parseFrame buffer = .frame f rest) :
    ∃ k, frameCheck buffer = .ok k ∧ frameParse buffer = .ok (f, k) ∧
      rest = buffer.drop k ∧ buffer.take k ++ rest = buffer := by
  rw [parseFrame] at h
  cases hc : frameCheck buffer with
  | error e =>
    rw [hc] at h
    cases e with
    | incomplete => exact ReadOutcome.noConfusion h
    | bad => exact ReadOutcome.noConfusion h
  | ok len =>
    rw [hc] at h
    dsimp only at h
    cases hp : frameParse buffer with
    | error e =>
      rw [hp] at h
      cases e with
      | incomplete => exact ReadOutcome.noConfusion h
      | bad => exact ReadOutcome.noConfusion h
      | panicked => exact ReadOutcome.noConfusion h
      | slicePanic => exact ReadOutcome.noConfusion h
    | ok fp =>
      obtain ⟨f2, p⟩ := fp
      rw [hp] at h
      dsimp only at h
      injection h with h1 h2
      have hend := ((checkParseAgree buffer (buffer.length + 1)).1 0 len hc).2 f2 p hp
      refine ⟨len, rfl, ?_, ?_, ?_⟩
      · rw [h1, hend]
      · rw [← h2]
      · rw [← h2]
        exact List.take_append_drop len buffer

/-- Witness for C6: the buffer `+OK CRLF X` yields the Simple frame with
one trailing byte left over. -/
theorem c6_witness :
    ∃ k, frameCheck [43, 79, 75, 13, 10, 88] = .ok k ∧
      frameParse [43, 79, 75, 13, 10, 88] = .ok (.simple [79, 75], k) ∧
      [88] = List.drop k [43, 79, 75, 13, 10, 88] ∧
      List.take k [43, 79, 75, 13, 10, 88] ++ [88] = [43, 79, 75, 13, 10, 88] :=
  c6_read_frame_consumes_exactly [43, 79, 75, 13, 10, 88] [88] (.simple [79, 75]) rfl

/-! ### Prefix behaviour of `Frame::check` (claim C5)

A buffer that is a prefix of one `check` accepts is never rejected as
malformed: every byte `check` reads from the prefix agrees with the full
buffer, so the prefix either runs out of data (`Incomplete`) or completes
identically. -/

theorem lineSplitPfx (s t l r : List Nat)
    (h : lineSplit (s ++ t) = some (l, r)) :
    lineSplit s = none ∨ ∃ r2, lineSplit s = some (l, r2) ∧ r = r2 ++ t := by
  induction s generalizing l r with
  | nil => exact Or.inl rfl
  | cons a s1 ih =>
    cases s1 with
    | nil => exact Or.inl rfl
    | cons b s2 =>
      rw [List.cons_append, List.cons_append] at h
      rw [lineSplit] at h
      by_cases hab : a = 13 ∧ b = 10
      · rw [if_pos hab] at h
        injection h with h1
        rw [Prod.mk.injEq] at h1
        obtain ⟨hl, hr⟩ := h1
        subst hl
        subst hr
        refine Or.inr ⟨s2, ?_, rfl⟩
        rw [lineSplit, if_pos hab]
      · rw [if_neg hab] at h
        cases hbs : lineSplit (b :: (s2 ++ t)) with
        | none =>
          rw [hbs] at h
          dsimp only at h
          exact Option.noConfusion h
        | some p =>
          obtain ⟨l1, r1⟩ := p
          rw [hbs] at h
          dsimp only at h
          injection h with h1
          rw [Prod.mk.injEq] at h1
          obtain ⟨hl, hr⟩ := h1
          subst hl
          subst hr
          have hbs2 : lineSplit ((b :: s2) ++ t) = some (l1, r1) := by
            rw [List.cons_append]
            exact hbs
          rcases ih l1 r1 hbs2 with hnone | ⟨r2, hsplit, hr2⟩
          · refine Or.inl ?_
            rw [lineSplit, if_neg hab, hnone]
          · refine Or.inr ⟨r2, ?_, hr2⟩
            rw [lineSplit, if_neg hab, hsplit]

theorem getLinePfx (s t : List Nat) (pos : Nat) (line : List Nat) (p : Nat)
    (h : getLine (s ++ t) pos = some (line, p)) :
    getLine s pos = none ∨ getLine s pos = some (line, p) := by
  unfold getLine at h ⊢
  rw [List.drop_append_eq_append_drop] at h
  cases hsp : lineSplit (s.drop pos ++ t.drop (pos - s.length)) with
  | none =>
    rw [hsp] at h
    dsimp only at h
    exact Option.noConfusion h
  | some q =>
    obtain ⟨l1, r1⟩ := q
    rw [hsp] at h
    dsimp only at h
    injection h with h1
    rw [Prod.mk.injEq] at h1
    obtain ⟨hl, hp⟩ := h1
    subst hl
    subst hp
    rcases lineSplitPfx (s.drop pos) (t.drop (pos - s.length)) l1 r1 hsp with
      hnone | ⟨r2, hsome, _⟩
    · rw [hnone]
      exact Or.inl rfl
    · rw [hsome]
      exact Or.inr rfl

theorem getU8Pfx (s t : List Nat) (pos b p : Nat)
    (h : getU8 (s ++ t) pos = some (b, p)) :
    getU8 s pos = none ∨ getU8 s pos = some (b, p) := by
  unfold getU8 at h ⊢
  cases hsd : s.drop pos with
  | nil =>
    exact Or.inl rfl
  | cons x xs =>
    have hfull : (s ++ t).drop pos = x :: (xs ++ t.drop (pos - s.length)) := by
      rw [List.drop_append_eq_append_drop, hsd, List.cons_append]
    rw [hfull] at h
    dsimp only [List.head?] at h ⊢
    exact Or.inr h

theorem peekU8Pfx (s t : List Nat) (pos b : Nat)
    (h : peekU8 (s ++ t) pos = some b) :
    peekU8 s pos = none ∨ peekU8 s pos = some b := by
  unfold peekU8 at h ⊢
  cases hsd : s.drop pos with
  | nil =>
    exact Or.inl rfl
  | cons x xs =>
    have hfull : (s ++ t).drop pos = x :: (xs ++ t.drop (pos - s.length)) := by
      rw [List.drop_append_eq_append_drop, hsd, List.cons_append]
    rw [hfull] at h
    exact Or.inr h

theorem skipNPfx (s t : List Nat) (pos n p : Nat)
    (h : skipN (s ++ t) pos n = some p) :
    skipN s pos n = none ∨ skipN s pos n = some p := by
  unfold skipN at h ⊢
  by_cases hlt : s.length - pos < n
  · rw [if_pos hlt]
    exact Or.inl rfl
  · rcases Nat.lt_or_ge ((s ++ t).length - pos) n with hlt2 | hge2
    · rw [if_pos hlt2] at h
      exact Option.noConfusion h
    · rw [if_neg (Nat.not_lt.mpr hge2)] at h
      rw [if_neg hlt]
      exact Or.inr h

theorem getDecimalPfx (s t : List Nat) (pos v p : Nat)
    (h : getDecimal (s ++ t) pos = .ok (v, p)) :
    getDecimal s pos = .error .incomplete ∨ getDecimal s pos = .ok (v, p) := by
  unfold getDecimal at h ⊢
  cases hgl : getLine (s ++ t) pos with
  | none =>
    rw [hgl] at h
    dsimp only at h
    exact Except.noConfusion h
  | some q =>
    obtain ⟨line, p1⟩ := q
    rw [hgl] at h
    dsimp only at h
    rcases getLinePfx s t pos line p1 hgl with hnone | hsome
    · rw [hnone]
      exact Or.inl rfl
    · rw [hsome]
      exact Or.inr h

/-- Prefix property for one frame at the given fuel: any prefix of a
buffer that `check` accepts is itself either incomplete or accepted with
the same end position, under any fuel. -/
def CheckPfxAgree (s t : List Nat) (fuel : Nat) : Prop :=
  ∀ fuel2 pos q, checkF (s ++ t) fuel pos = .ok q →
    checkF s fuel2 pos = .error .incomplete ∨ checkF s fuel2 pos = .ok q

/-- Prefix property for array element lists at the given fuel. -/
def CheckPfxListAgree (s t : List Nat) (fuel : Nat) : Prop :=
  ∀ fuel2 n pos q, checkList (s ++ t) fuel n pos = .ok q →
    checkList s fuel2 n pos = .error .incomplete ∨ checkList s fuel2 n pos = .ok q

theorem checkPfxAgree (s t : List Nat) :
    ∀ fuel, CheckPfxAgree s t fuel ∧ CheckPfxListAgree s t fuel := by
  intro fuel
  induction fuel with
  | zero =>
    constructor
    · intro fuel2 pos q hk
      rw [checkF] at hk
      exact Except.noConfusion hk
    · intro fuel2 n pos q hk
      exact Except.noConfusion hk
  | succ f ih =>
    obtain ⟨ihF, ihL⟩ := ih
    constructor
    · intro fuel2 pos q hk
      cases fuel2 with
      | zero => exact Or.inl rfl
      | succ f2 =>
        rw [checkF] at hk
        rw [checkF]
        cases hu : getU8 (s ++ t) pos with
        | none =>
          rw [hu] at hk
          exact Except.noConfusion hk
        | some bp =>
          obtain ⟨b, pos1⟩ := bp
          rw [hu] at hk
          dsimp only at hk ⊢
          rcases getU8Pfx s t pos b pos1 hu with hus | hus
          · rw [hus]
            exact Or.inl rfl
          · rw [hus]
            dsimp only
            by_cases hb1 : b = 43 ∨ b = 45
            · rw [if_pos hb1] at hk
              rw [if_pos hb1]
              cases hgl : getLine (s ++ t) pos1 with
              | none =>
                rw [hgl] at hk
                exact Except.noConfusion hk
              | some lr =>
                obtain ⟨line, p2⟩ := lr
                rw [hgl] at hk
                dsimp only at hk
                rcases getLinePfx s t pos1 line p2 hgl with hgs | hgs
                · rw [hgs]
                  exact Or.inl rfl
                · rw [hgs]
                  exact Or.inr hk
            · rw [if_neg hb1] at hk
              rw [if_neg hb1]
              by_cases hb58 : b = 58
              · rw [if_pos hb58] at hk
                rw [if_pos hb58]
                cases hgd : getDecimal (s ++ t) pos1 with
                | error e =>
                  rw [hgd] at hk
                  exact Except.noConfusion hk
                | ok vp =>
                  obtain ⟨v, p2⟩ := vp
                  rw [hgd] at hk
                  dsimp only at hk
                  rcases getDecimalPfx s t pos1 v p2 hgd with hgs | hgs
                  · rw [hgs]
                    exact Or.inl rfl
                  · rw [hgs]
                    exact Or.inr hk
              · rw [if_neg hb58] at hk
                rw [if_neg hb58]
                by_cases hb36 : b = 36
                · rw [if_pos hb36] at hk
                  rw [if_pos hb36]
                  cases hpk : peekU8 (s ++ t) pos1 with
                  | none =>
                    rw [hpk] at hk
                    exact Except.noConfusion hk
                  | some c =>
                    rw [hpk] at hk
                    dsimp only at hk
                    rcases peekU8Pfx s t pos1 c hpk with hps | hps
                    · rw [hps]
                      exact Or.inl rfl
                    · rw [hps]
                      dsimp only
                      by_cases hc45 : c = 45
                      · rw [if_pos hc45] at hk
                        rw [if_pos hc45]
                        cases hsk : skipN (s ++ t) pos1 4 with
                        | none =>
                          rw [hsk] at hk
                          exact Except.noConfusion hk
                        | some p =>
                          rw [hsk] at hk
                          rcases skipNPfx s t pos1 4 p hsk with hss | hss
                          · rw [hss]
                            exact Or.inl rfl
                          · rw [hss]
                            exact Or.inr hk
                      · rw [if_neg hc45] at hk
                        rw [if_neg hc45]
                        cases hgd : getDecimal (s ++ t) pos1 with
                        | error e =>
                          rw [hgd] at hk
                          exact Except.noConfusion hk
                        | ok lp =>
                          obtain ⟨len, pos2⟩ := lp
                          rw [hgd] at hk
                          dsimp only at hk
                          rcases getDecimalPfx s t pos1 len pos2 hgd with hgs | hgs
                          · rw [hgs]
                            exact Or.inl rfl
                          · rw [hgs]
                            dsimp only
                            cases hsk : skipN (s ++ t) pos2 ((len + 2) % 2 ^ 64) with
                            | none =>
                              rw [hsk] at hk
                              exact Except.noConfusion hk
                            | some p =>
                              rw [hsk] at hk
                              rcases skipNPfx s t pos2 ((len + 2) % 2 ^ 64) p hsk with hss | hss
                              · rw [hss]
                                exact Or.inl rfl
                              · rw [hss]
                                exact Or.inr hk
                · rw [if_neg hb36] at hk
                  rw [if_neg hb36]
                  by_cases hb42 : b = 42
                  · rw [if_pos hb42] at hk
                    rw [if_pos hb42]
                    cases hgd : getDecimal (s ++ t) pos1 with
                    | error e =>
                      rw [hgd] at hk
                      exact Except.noConfusion hk
                    | ok cp =>
                      obtain ⟨cnt, pos2⟩ := cp
                      rw [hgd] at hk
                      dsimp only at hk
                      rcases getDecimalPfx s t pos1 cnt pos2 hgd with hgs | hgs
                      · rw [hgs]
                        exact Or.inl rfl
                      · rw [hgs]
                        dsimp only
                        exact ihL f2 cnt pos2 q hk
                  · rw [if_neg hb42] at hk
                    exact Except.noConfusion hk
    · intro fuel2 n pos q hk
      cases fuel2 with
      | zero => exact Or.inl rfl
      | succ f2 =>
        rw [checkList.eq_def] at hk
        rw [checkList.eq_def]
        dsimp only at hk ⊢
        cases n with
        | zero =>
          exact Or.inr hk
        | succ m =>
          dsimp only at hk ⊢
          cases hcf : checkF (s ++ t) f pos with
          | error e =>
            rw [hcf] at hk
            exact Except.noConfusion hk
          | ok p1 =>
            rw [hcf] at hk
            rcases ihF f2 pos p1 hcf with hfs | hfs
            · rw [hfs]
              exact Or.inl rfl
            · rw [hfs]
              exact ihL f2 m p1 q hk

theorem checkF_unknown_tag (b : Nat) (tail : List Nat) (f : Nat)
    (hb : ¬(b = 43 ∨ b = 45 ∨ b = 58 ∨ b = 36 ∨ b = 42)) :
    checkF (b :: tail) (f + 1) 0 = .error .bad := by
  have h43 : ¬b = 43 := fun h => hb (Or.inl h)
  have h45 : ¬b = 45 := fun h => hb (Or.inr (Or.inl h))
  have h58 : ¬b = 58 := fun h => hb (Or.inr (Or.inr (Or.inl h)))
  have h36 : ¬b = 36 := fun h => hb (Or.inr (Or.inr (Or.inr (Or.inl h))))
  have h42 : ¬b = 42 := fun h => hb (Or.inr (Or.inr (Or.inr (Or.inr h))))
  rw [checkF, getU8_cons]
  dsimp only
  rw [if_neg (fun hc : b = 43 ∨ b = 45 => hc.elim h43 h45),
    if_neg h58, if_neg h36, if_neg h42]

theorem atoiU64_bad_start (c : Nat) (line : List Nat)
    (hc : ¬(c = 43 ∨ c = 45 ∨ (48 ≤ c ∧ c ≤ 57))) :
    atoiU64 (c :: line) = none := by
  have hdig : (asciiDigit c).isSome = false := by
    unfold asciiDigit
    rw [if_neg (fun hd => hc (Or.inr (Or.inr hd)))]
    rfl
  unfold atoiU64
  dsimp only
  rw [if_neg (fun h => hc (Or.inl h)), if_neg (fun h => hc (Or.inr (Or.inl h))), hdig]
  simp

theorem checkF_integer_bad (c : Nat) (line suf : List Nat) (f : Nat)
    (hc : ¬(c = 43 ∨ c = 45 ∨ (48 ≤ c ∧ c ≤ 57))) (h13 : 13 ∉ c :: line) :
    checkF (58 :: c :: line ++ 13 :: 10 :: suf) (f + 1) 0 = .error .bad := by
  have hgd : getDecimal (58 :: c :: line ++ 13 :: 10 :: suf) 1 = .error .bad :=
    getDecimal_at_bad _ 1 (c :: line) suf rfl h13 (atoiU64_bad_start c line hc)
  have hu8 : getU8 (58 :: c :: line ++ 13 :: 10 :: suf) 0 = some (58, 1) := rfl
  rw [checkF, hu8]
  dsimp only
  rw [if_neg (by decide : ¬((58 : Nat) = 43 ∨ (58 : Nat) = 45)),
    if_pos (rfl : (58 : Nat) = 58), hgd]

theorem checkF_count_bad (c : Nat) (line suf : List Nat) (f : Nat)
    (hc : ¬(c = 43 ∨ c = 45 ∨ (48 ≤ c ∧ c ≤ 57))) (h13 : 13 ∉ c :: line) :
    checkF (42 :: c :: line ++ 13 :: 10 :: suf) (f + 1) 0 = .error .bad := by
  have hgd : getDecimal (42 :: c :: line ++ 13 :: 10 :: suf) 1 = .error .bad :=
    getDecimal_at_bad _ 1 (c :: line) suf rfl h13 (atoiU64_bad_start c line hc)
  have hu8 : getU8 (42 :: c :: line ++ 13 :: 10 :: suf) 0 = some (42, 1) := rfl
  rw [checkF, hu8]
  dsimp only
  rw [if_neg (by decide : ¬((42 : Nat) = 43 ∨ (42 : Nat) = 45)),
    if_neg (by decide : ¬(42 : Nat) = 58), if_neg (by decide : ¬(42 : Nat) = 36),
    if_pos (rfl : (42 : Nat) = 42), hgd]

theorem checkF_bulk_field_bad (c : Nat) (line suf : List Nat) (f : Nat)
    (hc : ¬(c = 43 ∨ c = 45 ∨ (48 ≤ c ∧ c ≤ 57))) (h13 : 13 ∉ c :: line) :
    checkF (36 :: c :: line ++ 13 :: 10 :: suf) (f + 1) 0 = .error .bad := by
  have hgd : getDecimal (36 :: c :: line ++ 13 :: 10 :: suf) 1 = .error .bad :=
    getDecimal_at_bad _ 1 (c :: line) suf rfl h13 (atoiU64_bad_start c line hc)
  have hg : getU8 (36 :: c :: line ++ 13 :: 10 :: suf) 0 = some (36, 1) := rfl
  have hpk : peekU8 (36 :: c :: line ++ 13 :: 10 :: suf) 1 = some c := rfl
  rw [checkF, hg]
  dsimp only
  rw [if_neg (by decide : ¬((36 : Nat) = 43 ∨ (36 : Nat) = 45)),
    if_neg (by decide : ¬(36 : Nat) = 58), if_pos (rfl : (36 : Nat) = 36), hpk]
  dsimp only
  rw [if_neg (fun h => hc (Or.inr (Or.inl h))), hgd]

theorem checkF_dollar_minus_ok (line3 suf : List Nat) (f : Nat)
    (hne : line3 ≠ []) :
    checkF (36 :: 45 :: line3 ++ 13 :: 10 :: suf) (f + 1) 0 = .ok 5 := by
  have hg : getU8 (36 :: 45 :: line3 ++ 13 :: 10 :: suf) 0 = some (36, 1) := rfl
  have hpk : peekU8 (36 :: 45 :: line3 ++ 13 :: 10 :: suf) 1 = some 45 := rfl
  have hlen3 : line3.length ≠ 0 := fun h => hne (List.eq_nil_of_length_eq_zero h)
  have h4 : ¬((36 :: 45 :: line3 ++ 13 :: 10 :: suf).length - 1 < 4) := by
    simp only [List.cons_append, List.length_cons, List.length_append]
    omega
  rw [checkF, hg]
  dsimp only
  rw [if_neg (by decide : ¬((36 : Nat) = 43 ∨ (36 : Nat) = 45)),
    if_neg (by decide : ¬(36 : Nat) = 58), if_pos (rfl : (36 : Nat) = 36), hpk]
  dsimp only
  rw [if_pos (rfl : (45 : Nat) = 45), skipN, if_neg h4]

theorem parseF_dollar_minus_bad (line3 suf : List Nat) (f : Nat)
    (h13 : 13 ∉ 45 :: line3) (hnot1 : line3 ≠ [49]) :
    parseF (36 :: 45 :: line3 ++ 13 :: 10 :: suf) (f + 1) 0 = .error .bad := by
  have hgl : getLine (36 :: 45 :: line3 ++ 13 :: 10 :: suf) 1 =
      some (45 :: line3, 1 + (45 :: line3).length + 2) :=
    getLine_at _ 1 (45 :: line3) suf rfl h13
  have hg : getU8 (36 :: 45 :: line3 ++ 13 :: 10 :: suf) 0 = some (36, 1) := rfl
  have hpk : peekU8 (36 :: 45 :: line3 ++ 13 :: 10 :: suf) 1 = some 45 := rfl
  rw [parseF, hg]
  dsimp only
  rw [if_neg (by decide : ¬(36 : Nat) = 43), if_neg (by decide : ¬(36 : Nat) = 45),
    if_neg (by decide : ¬(36 : Nat) = 58), if_pos (rfl : (36 : Nat) = 36), hpk]
  dsimp only
  rw [if_pos (rfl : (45 : Nat) = 45), hgl]
  dsimp only
  rw [if_neg (fun h : 45 :: line3 = [45, 49] => hnot1 (List.cons.inj h).2)]

theorem checkF_simple_ok (line suf : List Nat) (f : Nat) (h13 : 13 ∉ line) :
    checkF (43 :: line ++ 13 :: 10 :: suf) (f + 1) 0 = .ok (line.length + 3) := by
  have hgl : getLine (43 :: line ++ 13 :: 10 :: suf) 1 =
      some (line, 1 + line.length + 2) :=
    getLine_at _ 1 line suf rfl h13
  have hu8 : getU8 (43 :: line ++ 13 :: 10 :: suf) 0 = some (43, 1) := rfl
  rw [checkF, hu8]
  dsimp only
  rw [if_pos (Or.inl rfl : (43 : Nat) = 43 ∨ (43 : Nat) = 45), hgl]
  dsimp only
  have harith : 1 + line.length + 2 = line.length + 3 := by omega
  rw [harith]

theorem parseF_simple_bad (line suf : List Nat) (f : Nat) (h13 : 13 ∉ line)
    (hu8 : utf8Valid line = false) :
    parseF (43 :: line ++ 13 :: 10 :: suf) (f + 1) 0 = .error .bad := by
  have hgl : getLine (43 :: line ++ 13 :: 10 :: suf) 1 =
      some (line, 1 + line.length + 2) :=
    getLine_at _ 1 line suf rfl h13
  have hg : getU8 (43 :: line ++ 13 :: 10 :: suf) 0 = some (43, 1) := rfl
  rw [parseF, hg]
  dsimp only
  rw [if_pos (rfl : (43 : Nat) = 43), hgl]
  dsimp only
  rw [if_neg (by rw [hu8]; decide : ¬utf8Valid line = true)]

theorem checkF_error_ok (line suf : List Nat) (f : Nat) (h13 : 13 ∉ line) :
    checkF (45 :: line ++ 13 :: 10 :: suf) (f + 1) 0 = .ok (line.length + 3) := by
  have hgl : getLine (45 :: line ++ 13 :: 10 :: suf) 1 =
      some (line, 1 + line.length + 2) :=
    getLine_at _ 1 line suf rfl h13
  have hg : getU8 (45 :: line ++ 13 :: 10 :: suf) 0 = some (45, 1) := rfl
  rw [checkF, hg]
  dsimp only
  rw [if_pos (Or.inr rfl : (45 : Nat) = 43 ∨ (45 : Nat) = 45), hgl]
  dsimp only
  have harith : 1 + line.length + 2 = line.length + 3 := by omega
  rw [harith]

theorem parseF_error_frame_bad (line suf : List Nat) (f : Nat) (h13 : 13 ∉ line)
    (hu8 : utf8Valid line = false) :
    parseF (45 :: line ++ 13 :: 10 :: suf) (f + 1) 0 = .error .bad := by
  have hgl : getLine (45 :: line ++ 13 :: 10 :: suf) 1 =
      some (line, 1 + line.length + 2) :=
    getLine_at _ 1 line suf rfl h13
  have hg : getU8 (45 :: line ++ 13 :: 10 :: suf) 0 = some (45, 1) := rfl
  rw [parseF, hg]
  dsimp only
  rw [if_neg (by decide : ¬(45 : Nat) = 43), if_pos (rfl : (45 : Nat) = 45), hgl]
  dsimp only
  rw [if_neg (by rw [hu8]; decide : ¬utf8Valid line = true)]

theorem checkF_bulk_len_overflow (ds suf : List Nat) (f : Nat)
    (hd : ∀ x ∈ ds, 48 ≤ x ∧ x ≤ 57) (hge : 2 ^ 64 ≤ digitsVal ds) :
    checkF (36 :: ds ++ 13 :: 10 :: suf) (f + 1) 0 = .error .bad := by
  cases ds with
  | nil =>
    exfalso
    unfold digitsVal at hge
    rw [List.foldl_nil] at hge
    omega
  | cons d ds2 =>
    have hdd := hd d (List.mem_cons_self _ _)
    have hatoi : atoiU64 (d :: ds2) = none := atoiU64_digits_overflow _ hd hge
    have hgd : getDecimal (36 :: (d :: ds2) ++ 13 :: 10 :: suf) 1 = .error .bad :=
      getDecimal_at_bad _ 1 (d :: ds2) suf rfl (digits_no13 hd) hatoi
    have hg : getU8 (36 :: (d :: ds2) ++ 13 :: 10 :: suf) 0 = some (36, 1) := rfl
    have hpk : peekU8 (36 :: (d :: ds2) ++ 13 :: 10 :: suf) 1 = some d := rfl
    rw [checkF, hg]
    dsimp only
    rw [if_neg (by decide : ¬((36 : Nat) = 43 ∨ (36 : Nat) = 45)),
      if_neg (by decide : ¬(36 : Nat) = 58), if_pos (rfl : (36 : Nat) = 36), hpk]
    dsimp only
    rw [if_neg (by omega : ¬d = 45), hgd]

/-- Counterexample to C5 as stated: the integer field `12abc` is not a
numeric decimal, yet `Frame::check` accepts the frame and the connection
receives `Integer(12)` instead of being terminated — `atoi` parses the
leading digits and silently ignores the trailing garbage. -/
theorem c5_counterexample :
    frameCheck [58, 49, 50, 97, 98, 99, 13, 10] = .ok 8 ∧
    parseFrame [58, 49, 50, 97, 98, 99, 13, 10] = .frame (.integer 12) [] :=
  ⟨rfl, rfl⟩

/-- Claim C5 (corrected): an unknown tag byte; an integer (`:`), array
count (`*`) or bulk length (`$`) field that does not begin with a sign or
digit; a `$-` line other than `-1` (accepted by `check`, rejected by
`parse`); invalid UTF-8 in a Simple (`+`) or Error (`-`) frame (accepted
by `check`, rejected by `parse`); and an all-digit length field exceeding
`u64` — all make `Connection::parse_frame` fail and terminate the
connection, while a mere prefix of a valid frame is never treated as an
error. The claim's blanket reading for non-numeric fields is false:
`atoi` ignores trailing garbage after leading digits (see the
counterexample). -/
theorem c5_malformed_rejected (b c : Nat)
    (tail line suf line2 suf2 line3 suf3 ds suf4 s t : List Nat) (k : Nat) :
    (¬(b = 43 ∨ b = 45 ∨ b = 58 ∨ b = 36 ∨ b = 42) →
      frameCheck (b :: tail) = .error .bad ∧ parseFrame (b :: tail) = .failed) ∧
    (¬(c = 43 ∨ c = 45 ∨ (48 ≤ c ∧ c ≤ 57)) → 13 ∉ c :: line →
      frameCheck (58 :: c :: line ++ 13 :: 10 :: suf) = .error .bad ∧
      parseFrame (58 :: c :: line ++ 13 :: 10 :: suf) = .failed) ∧
    (¬(c = 43 ∨ c = 45 ∨ (48 ≤ c ∧ c ≤ 57)) → 13 ∉ c :: line →
      frameCheck (42 :: c :: line ++ 13 :: 10 :: suf) = .error .bad ∧
      parseFrame (42 :: c :: line ++ 13 :: 10 :: suf) = .failed) ∧
    (¬(c = 43 ∨ c = 45 ∨ (48 ≤ c ∧ c ≤ 57)) → 13 ∉ c :: line →
      frameCheck (36 :: c :: line ++ 13 :: 10 :: suf) = .error .bad ∧
      parseFrame (36 :: c :: line ++ 13 :: 10 :: suf) = .failed) ∧
    (line3 ≠ [] → 13 ∉ 45 :: line3 → line3 ≠ [49] →
      frameCheck (36 :: 45 :: line3 ++ 13 :: 10 :: suf3) = .ok 5 ∧
      frameParse (36 :: 45 :: line3 ++ 13 :: 10 :: suf3) = .error .bad ∧
      parseFrame (36 :: 45 :: line3 ++ 13 :: 10 :: suf3) = .failed) ∧
    (13 ∉ line2 → utf8Valid line2 = false →
      frameCheck (43 :: line2 ++ 13 :: 10 :: suf2) = .ok (line2.length + 3) ∧
      frameParse (43 :: line2 ++ 13 :: 10 :: suf2) = .error .bad ∧
      parseFrame (43 :: line2 ++ 13 :: 10 :: suf2) = .failed) ∧
    (13 ∉ line2 → utf8Valid line2 = false →
      frameCheck (45 :: line2 ++ 13 :: 10 :: suf2) = .ok (line2.length + 3) ∧
      frameParse (45 :: line2 ++ 13 :: 10 :: suf2) = .error .bad ∧
      parseFrame (45 :: line2 ++ 13 :: 10 :: suf2) = .failed) ∧
    ((∀ x ∈ ds, 48 ≤ x ∧ x ≤ 57) → 2 ^ 64 ≤ digitsVal ds →
      frameCheck (36 :: ds ++ 13 :: 10 :: suf4) = .error .bad ∧
      parseFrame (36 :: ds ++ 13 :: 10 :: suf4) = .failed) ∧
    (frameCheck (s ++ t) = .ok k →
      frameCheck s ≠ .error .bad ∧
      (frameCheck s = .error .incomplete → parseFrame s = .needMore)) := by
  refine ⟨?_, ?_, ?_, ?_, ?_, ?_, ?_, ?_, ?_⟩
  · intro hb
    have hchk : frameCheck (b :: tail) = .error .bad := by
      unfold frameCheck
      exact checkF_unknown_tag b tail _ hb
    refine ⟨hchk, ?_⟩
    unfold parseFrame
    rw [hchk]
  · intro hcb h13
    have hchk : frameCheck (58 :: c :: line ++ 13 :: 10 :: suf) = .error .bad := by
      unfold frameCheck
      exact checkF_integer_bad c line suf _ hcb h13
    refine ⟨hchk, ?_⟩
    unfold parseFrame
    rw [hchk]
  · intro hcb h13
    have hchk : frameCheck (42 :: c :: line ++ 13 :: 10 :: suf) = .error .bad := by
      unfold frameCheck
      exact checkF_count_bad c line suf _ hcb h13
    refine ⟨hchk, ?_⟩
    unfold parseFrame
    rw [hchk]
  · intro hcb h13
    have hchk : frameCheck (36 :: c :: line ++ 13 :: 10 :: suf) = .error .bad := by
      unfold frameCheck
      exact checkF_bulk_field_bad c line suf _ hcb h13
    refine ⟨hchk, ?_⟩
    unfold parseFrame
    rw [hchk]
  · intro hne h13 hnot1
    have hchk : frameCheck (36 :: 45 :: line3 ++ 13 :: 10 :: suf3) = .ok 5 := by
      unfold frameCheck
      exact checkF_dollar_minus_ok line3 suf3 _ hne
    have hpar : frameParse (36 :: 45 :: line3 ++ 13 :: 10 :: suf3) = .error .bad := by
      unfold frameParse
      exact parseF_dollar_minus_bad line3 suf3 _ h13 hnot1
    refine ⟨hchk, hpar, ?_⟩
    unfold parseFrame
    rw [hchk, hpar]
  · intro h13 hu8
    have hchk : frameCheck (43 :: line2 ++ 13 :: 10 :: suf2) =
        .ok (line2.length + 3) := by
      unfold frameCheck
      exact checkF_simple_ok line2 suf2 _ h13
    have hpar : frameParse (43 :: line2 ++ 13 :: 10 :: suf2) = .error .bad := by
      unfold frameParse
      exact parseF_simple_bad line2 suf2 _ h13 hu8
    refine ⟨hchk, hpar, ?_⟩
    unfold parseFrame
    rw [hchk, hpar]
  · intro h13 hu8
    have hchk : frameCheck (45 :: line2 ++ 13 :: 10 :: suf2) =
        .ok (line2.length + 3) := by
      unfold frameCheck
      exact checkF_error_ok line2 suf2 _ h13
    have hpar : frameParse (45 :: line2 ++ 13 :: 10 :: suf2) = .error .bad := by
      unfold frameParse
      exact parseF_error_frame_bad line2 suf2 _ h13 hu8
    refine ⟨hchk, hpar, ?_⟩
    unfold parseFrame
    rw [hchk, hpar]
  · intro hd hge
    have hchk : frameCheck (36 :: ds ++ 13 :: 10 :: suf4) = .error .bad := by
      unfold frameCheck
      exact checkF_bulk_len_overflow ds suf4 _ hd hge
    refine ⟨hchk, ?_⟩
    unfold parseFrame
    rw [hchk]
  · intro hok
    unfold frameCheck at hok
    constructor
    · intro hbad
      unfold frameCheck at hbad
      rcases (checkPfxAgree s t ((s ++ t).length + 1)).1 (s.length + 1) 0 k hok with
        h1 | h1
      · rw [hbad] at h1
        exact FrErr.noConfusion (Except.error.inj h1)
      · rw [hbad] at h1
        exact Except.noConfusion h1
    · intro hinc
      unfold parseFrame
      rw [hinc]

/-- Witness for C5 on concrete buffers: an `@` tag; the field `z3` after
each of the tags `:`, `*` and `$`; the `$-` line `-abc`; the non-UTF-8
payload `0xFF` as a Simple and as an Error frame; the length field
`18446744073709551616` (`2 ^ 64`); and the strict prefix `+O` of
`+OK CRLF`. -/
theorem c5_witness :
    (frameCheck [64, 13, 10] = .error .bad ∧ parseFrame [64, 13, 10] = .failed) ∧
    (frameCheck [58, 122, 51, 13, 10] = .error .bad ∧
      parseFrame [58, 122, 51, 13, 10] = .failed) ∧
    (frameCheck [42, 122, 51, 13, 10] = .error .bad ∧
      parseFrame [42, 122, 51, 13, 10] = .failed) ∧
    (frameCheck [36, 122, 51, 13, 10] = .error .bad ∧
      parseFrame [36, 122, 51, 13, 10] = .failed) ∧
    (frameCheck [36, 45, 97, 98, 99, 13, 10] = .ok 5 ∧
      frameParse [36, 45, 97, 98, 99, 13, 10] = .error .bad ∧
      parseFrame [36, 45, 97, 98, 99, 13, 10] = .failed) ∧
    (frameCheck [43, 255, 13, 10] = .ok 4 ∧
      frameParse [43, 255, 13, 10] = .error .bad ∧
      parseFrame [43, 255, 13, 10] = .failed) ∧
    (frameCheck [45, 255, 13, 10] = .ok 4 ∧
      frameParse [45, 255, 13, 10] = .error .bad ∧
      parseFrame [45, 255, 13, 10] = .failed) ∧
    (frameCheck [36, 49, 56, 52, 52, 54, 55, 52, 52, 48, 55, 51, 55, 48, 57, 53,
        53, 49, 54, 49, 54, 13, 10] = .error .bad ∧
      parseFrame [36, 49, 56, 52, 52, 54, 55, 52, 52, 48, 55, 51, 55, 48, 57, 53,
        53, 49, 54, 49, 54, 13, 10] = .failed) ∧
    (frameCheck [43, 79] ≠ .error .bad ∧
      (frameCheck [43, 79] = .error .incomplete → parseFrame [43, 79] = .needMore)) := by
  have H := c5_malformed_rejected 64 122 [13, 10] [51] [] [255] [] [97, 98, 99] []
    [49, 56, 52, 52, 54, 55, 52, 52, 48, 55, 51, 55, 48, 57, 53, 53, 49, 54, 49, 54]
    [] [43, 79] [75, 13, 10] 5
  exact ⟨H.1 (by decide), H.2.1 (by decide) (by decide),
    H.2.2.1 (by decide) (by decide), H.2.2.2.1 (by decide) (by decide),
    H.2.2.2.2.1 (by decide) (by decide) (by decide),
    H.2.2.2.2.2.1 (by decide) (by decide), H.2.2.2.2.2.2.1 (by decide) (by decide),
    H.2.2.2.2.2.2.2.1 (by decide) (by decide), H.2.2.2.2.2.2.2.2 rfl⟩


/-- Claim C7: when `set` stores an entry with expiry instant
`t = now + d`, the purge worker is notified exactly when the expiration
index was empty or `t` is strictly earlier than the minimum instant in
the index at the start of the call (`next_expiration` is read before the
state is modified). -/
theorem c7_set_notifies_on_earlier_expiry (s : DbState) (now : Nat)
    (key value : List Nat) (d : Duration)
    (hs : s.expirations.Pairwise (fun a b => pairLt a b = true)) :
    ((dbSet s now key value (some d)).2 = true ↔
      s.expirations = [] ∨
        ∃ m, (s.expirations.map Prod.fst).min? = some m ∧ now + d < m) := by
  unfold dbSet nextExpiration
  cases hexp : s.expirations with
  | nil => simp
  | cons p rest =>
    rw [hexp] at hs
    have hmin := sorted_min_eq_head hs
    simp only [List.head?_cons, Option.map_some, Option.map_some']
    constructor
    · intro h
      refine Or.inr ⟨p.1, hmin, ?_⟩
      simp at h
      exact h
    · intro h
      rcases h with h | ⟨m, hm, hlt⟩
      · simp at h
      · rw [hmin] at hm
        injection hm with hm
        simp
        omega

/-- Witness for C7: with the index holding instants 50 and 70, a `set`
expiring at 40 notifies, and one expiring at 60 does not. -/
theorem c7_witness :
    ((dbSet (DbState.mk [] [] [(50, [97]), (70, [98])] false) 10 [99] [1]
        (some 30)).2 = true ∧
     (dbSet (DbState.mk [] [] [(50, [97]), (70, [98])] false) 10 [99] [1]
        (some 50)).2 ≠ true) := by
  constructor
  · rw [c7_set_notifies_on_earlier_expiry _ _ _ _ _ (by decide)]
    exact Or.inr ⟨50, by decide, by decide⟩
  · intro hc
    rw [c7_set_notifies_on_earlier_expiry _ _ _ _ _ (by decide)] at hc
    rcases hc with h | ⟨m, hm, hlt⟩
    · simp at h
    · have : m = 50 := by
        have : ((([(50, [97]), (70, [98])] :
            List (Nat × List Nat)).map Prod.fst).min?) = some 50 := by decide
        rw [this] at hm
        injection hm with hm
        omega
      omega

end MiniRedis
